import Mathlib

/-!
Shallow embedding of the PIA regions-updater (pia-mutating-webhook repository):
the Region data model, Clone, the probing worker variants, result collection,
the four ranking comparators, the ConfigMap persister and the YAML payload
codec, together with theorems settling the specification claims.

Go `time.Duration` is an `int64` number of nanoseconds; it is embedded as `Int`.
Go pointers (`*time.Duration`, `*ServersList`, `*Region`) are embedded as
`Option`; a `none` result of a fallible embedding marks a nil-pointer
dereference (a Go panic) or a returned error, as noted at each definition.
Go slices are embedded as `List` (nil and empty slices behave identically in
all the embedded code paths: `len`, `range`, `append`).
-/

namespace PIA

/-- Go `time.Duration` (int64 nanoseconds). -/
abbrev Duration := Int

/-- `Server` from region/types.go: IP, common name, VAN flag and an optional
measured latency (`*time.Duration`). -/
structure Server where
  Latency : Option Duration
  IP : String
  CN : String
  VAN : Bool
deriving DecidableEq

/-- `ServersList` from region/types.go: one list of servers per transport
family. -/
structure ServersList where
  IkeV2 : List Server
  Meta : List Server
  OpenVPNTCP : List Server
  OpenVPNUDP : List Server
  WireGuard : List Server
deriving DecidableEq

/-- The all-empty `ServersList` (`&ServersList\x7b\x7d` in Go). -/
def ServersList.empty : ServersList :=
  { IkeV2 := [], Meta := [], OpenVPNTCP := [], OpenVPNUDP := [], WireGuard := [] }

/-- `Region` from region/types.go. `Servers` is a `*ServersList`, hence
`Option`. -/
structure Region where
  ID : String
  Name : String
  Country : String
  AutoRegion : Bool
  DNS : String
  PortForward : Bool
  Geo : Bool
  Offline : Bool
  Servers : Option ServersList
deriving DecidableEq

/-- `Server.Clone` from region/types.go: copies IP, CN, VAN, and copies the
latency value into a fresh allocation when present. -/
def Server.clone (s : Server) : Server :=
  { IP := s.IP
    CN := s.CN
    VAN := s.VAN
    Latency :=
      match s.Latency with
      | none => none
      | some l => some l }

/-- The successful body of `Region.Clone` from region/types.go, for a region
whose `Servers` pointer holds `s`: every scalar field is copied, `Servers` is
a fresh list whose only populated family is WireGuard (element-wise
`Server.Clone` of the original WireGuard list); the other four families are
left empty ("We use wireguard, so for now we don't copy others."). -/
def cloneOf (r : Region) (s : ServersList) : Region :=
  { ID := r.ID
    Name := r.Name
    Country := r.Country
    AutoRegion := r.AutoRegion
    DNS := r.DNS
    PortForward := r.PortForward
    Geo := r.Geo
    Offline := r.Offline
    Servers := some { ServersList.empty with WireGuard := s.WireGuard.map Server.clone } }

/-- `Region.Clone` from region/types.go. It ranges over `r.Servers.WireGuard`,
so a nil `Servers` pointer panics: embedded as `none`. -/
def Region.clone (r : Region) : Option Region :=
  match r.Servers with
  | none => none
  | some s => some (cloneOf r s)

/-! ### Ranking comparators (sort strategies source file)

The comparators range over `[]*ServerLatency`.

Modelled from the spec: the element type `ServerLatency` is declared in a
repository file that is not under src/ (only the comparator methods that use
it are). Per §4.4 and §3 of the spec the ranking entries pair a probed Region
with an optional measured latency; the comparator bodies access exactly the
fields `Latency` (an optional duration, dereferenced with `*`) and
`Region.Name` (a string), so the model carries those. -/
structure ServerLatency where
  Latency : Option Duration
  Region : Region
deriving DecidableEq

/-- `byLowerLatency.Less` applied to the two slice elements `ll[i]`, `ll[j]`:
when either latency is nil it returns false ("Don't sort"), otherwise compares
ascending. -/
def byLowerLatencyLess (iserv jserv : ServerLatency) : Bool :=
  match iserv.Latency, jserv.Latency with
  | some li, some lj => li < lj
  | _, _ => false

/-- `byGreaterLatency.Less` applied to the two slice elements: when either
latency is nil it returns false ("Don't sort"), otherwise compares
descending. -/
def byGreaterLatencyLess (iserv jserv : ServerLatency) : Bool :=
  match iserv.Latency, jserv.Latency with
  | some li, some lj => lj < li
  | _, _ => false

/-- `byLowerRegionName.Less` applied to the two slice elements. On equal names
it dereferences both latencies with no nil check; that dereference of a nil
latency is a Go panic, embedded as `none`. -/
def byLowerRegionNameLess (iserv jserv : ServerLatency) : Option Bool :=
  if iserv.Region.Name < jserv.Region.Name then
    some true
  else if iserv.Region.Name = jserv.Region.Name then
    match iserv.Latency, jserv.Latency with
    | some li, some lj => some (lj < li)
    | _, _ => none
  else
    some false

/-- `byGreaterRegionName.Less` applied to the two slice elements. On equal
names it dereferences both latencies with no nil check; that dereference of a
nil latency is a Go panic, embedded as `none`. -/
def byGreaterRegionNameLess (iserv jserv : ServerLatency) : Option Bool :=
  if jserv.Region.Name < iserv.Region.Name then
    some true
  else if iserv.Region.Name = jserv.Region.Name then
    match iserv.Latency, jserv.Latency with
    | some li, some lj => some (lj < li)
    | _, _ => none
  else
    some false

/-! ### Latency prober

`calculateLatency` (region/main.go) and the inline dial of `work` both call
`net.DialTimeout("tcp", ip+":443", maxLatency)` and measure the elapsed time.
The dial is external (Go standard library); it is embedded by its documented
contract: the probed address has a true connect time (`none` when the
connection fails for a non-timing reason, e.g. refused or unreachable), the
dial succeeds exactly when that time is within the `maxLatency` deadline, and
otherwise fails with a timeout-classified error. The elapsed time measured by
`time.Since` on the monotonic clock equals the connect time. -/

/-- Outcome of `net.DialTimeout` under the contract model. -/
inductive DialResult where
  | ok (elapsed : Duration)
  | timeoutErr
  | otherErr
deriving DecidableEq

/-- `net.DialTimeout` by contract: success within the deadline, a
timeout-classified `net.Error` past it, another error when the connection
fails outright. -/
def dialTimeout (connectTime : Option Duration) (maxLatency : Duration) : DialResult :=
  match connectTime with
  | none => .otherErr
  | some t => if t ≤ maxLatency then .ok t else .timeoutErr

/-- Probe failure classification (`err.Timeout()` switch in the source). -/
inductive ProbeError where
  | timeout
  | other
deriving DecidableEq

/-- `calculateLatency` from region/main.go: dial with the `maxLatency`
deadline; on failure return the error (classified by the caller via
`err.Timeout()`), on success return the elapsed time. -/
def calculateLatency (connectTime : Option Duration) (maxLatency : Duration) :
    Except ProbeError Duration :=
  match dialTimeout connectTime maxLatency with
  | .ok elapsed => .ok elapsed
  | .timeoutErr => .error .timeout
  | .otherErr => .error .other

/-! ### Worker pool

Both worker variants consume Regions from the request channel and send
results (`*Region`, so `Option Region`: `none` is a nil pointer message) on
the result channel. A probe environment `probe : Server → Option Duration`
gives each server's dial outcome: `some d` means the dial succeeded with
elapsed time `d`, `none` means it failed (timeout or other error — both are
handled identically apart from logging). -/

/-- The inner per-server loop of the worker goroutine in region/main.go, on
the WireGuard list: for each server whose probe fails it sends `nil` on the
result channel and continues with the next server; each success is appended
to `ips` with its latency. Returns (messages sent, successful servers). -/
def probeServersA (probe : Server → Option Duration) :
    List Server → List (Option Region) × List Server
  | [] => ([], [])
  | serv :: rest =>
    match probe serv with
    | none =>
      let res := probeServersA probe rest
      (none :: res.1, res.2)
    | some lat =>
      let res := probeServersA probe rest
      (res.1, { IP := serv.IP, CN := serv.CN, VAN := serv.VAN, Latency := some lat } :: res.2)

/-- The inner per-server loop of `work` (event-loop variants): a failed probe
is skipped with no message; each success is appended to `ips` with its
latency. -/
def probeServersB (probe : Server → Option Duration) (servers : List Server) : List Server :=
  servers.filterMap fun serv =>
    (probe serv).map fun lat =>
      { IP := serv.IP, CN := serv.CN, VAN := serv.VAN, Latency := some lat }

/-- One iteration of the worker goroutine of region/main.go (`for reg := range
regionsChan`): nil `Servers` or an empty WireGuard list sends a single `nil`;
otherwise the per-server loop runs (sending a `nil` per failure), then the
region is cloned, its WireGuard list is replaced by the successes, and the
clone is sent. Returns the messages sent for the received region, in order. -/
def workerMessagesA (probe : Server → Option Duration) (r : Region) : List (Option Region) :=
  match r.Servers with
  | none => [none]
  | some s =>
    if s.WireGuard.length = 0 then
      [none]
    else
      let res := probeServersA probe s.WireGuard
      res.1 ++ [some { cloneOf r s with
        Servers := some { ServersList.empty with WireGuard := res.2 } }]

/-- One iteration of `work` (src/unnamed/part_000, also src/unnamed/part_004):
nil `Servers` or an empty WireGuard list is skipped with no message at all;
otherwise exactly one message, the clone with its WireGuard list replaced by
the successes, is sent. -/
def workMessages (probe : Server → Option Duration) (r : Region) : List (Option Region) :=
  match r.Servers with
  | none => []
  | some s =>
    if s.WireGuard.length = 0 then
      []
    else
      [some { cloneOf r s with
        Servers := some { ServersList.empty with WireGuard := probeServersB probe s.WireGuard } }]

/-! ### Result collection -/

/-- One `resChan` arrival in the event loop (also the collection loop of
region/main.go): `if lat != nil && len(lat.Servers.WireGuard) > 0` appends the
region to the in-memory results. A non-nil region whose `Servers` pointer is
nil would panic on the field access, embedded as `none`. -/
def collectStep (results : List Region) (lat : Option Region) : Option (List Region) :=
  match lat with
  | none => some results
  | some r =>
    match r.Servers with
    | none => none
    | some s => some (if 0 < s.WireGuard.length then results ++ [r] else results)

/-- Folding `collectStep` over a sequence of result-channel messages. -/
def collectAll (results : List Region) : List (Option Region) → Option (List Region)
  | [] => some results
  | m :: ms =>
    match collectStep results m with
    | none => none
    | some results2 => collectAll results2 ms

/-- The messages that the collection loop keeps: non-nil regions with a
non-empty WireGuard list. -/
def keepProbed (m : Option Region) : Option Region :=
  match m with
  | none => none
  | some r =>
    match r.Servers with
    | none => none
    | some s => if 0 < s.WireGuard.length then some r else none

/-! ### Startup validation and worker spawn (workers flag) -/

/-- `defaultWorkersNumber` constant. -/
def defaultWorkersNumber : Nat := 5

/-- ASCII lower-casing of one character (the flag values compared by the
validation block are ASCII). -/
def asciiLower (c : Char) : Char :=
  if 'A' ≤ c ∧ c ≤ 'Z' then Char.ofNat (c.toNat + 32) else c

/-- `strings.EqualFold` restricted to its effect on the flag strings:
case-insensitive equality (ASCII fold suffices for the compared values). -/
def equalFold (a b : String) : Bool :=
  a.data.map asciiLower == b.data.map asciiLower

/-- The CLI options consumed by the validation block (flags of the same
names). -/
structure Options where
  maxLatency : Duration
  workers : Nat
  maxServers : Nat
  serversListURL : String
  orderBy : String
  orderDirection : String
  verbosity : Int
deriving DecidableEq

/-- The validation block of `main` (identical in region/main.go and
src/unnamed/part_000): `log.Fatal` exits the process, embedded as `none`. The
checks on `Workers` and `MaxServers` only emit a debug line — the options
value is returned unchanged; the returned flag records whether the
"invalid workers flag provided" debug line was emitted. `url.Parse` rejects
no flag value that reaches this point (it fails only on control characters),
so it is embedded as always succeeding. -/
def validateOptions (o : Options) : Option (Options × Bool) :=
  if o.verbosity < 0 ∨ 3 < o.verbosity then
    none
  else if o.maxLatency = 0 then
    none
  else
    let workersDebugLogged := o.workers = 0
    if ¬(equalFold o.orderBy "name" ∨ equalFold o.orderBy "latency") then
      none
    else if ¬(equalFold o.orderDirection "asc" ∨ equalFold o.orderDirection "desc") then
      none
    else
      some (o, workersDebugLogged)

/-- The worker start loop `for i := 0; i < int(opts.Workers); i++` spawns one
worker goroutine per iteration; the result is the list of spawned worker
indices. Every region consumed from the request channel is consumed by one of
these workers. -/
def spawnWorkers (n : Nat) : List Nat := List.range n

/-! ### Snapshot persister (`updateConfigMap`, src/unnamed/part_000) -/

/-- `defaultConfMapName` constant. -/
def defaultConfMapName : String := "pia-regions"

/-- A Kubernetes ConfigMap as used by `updateConfigMap`: name, namespace,
string-keyed annotation and payload maps, plus the remaining object fields
the function never touches (labels and the string-data map stand in for
them). A Go map can be nil — a fetched object without annotations or binary
data decodes with those maps nil — so the two maps the function assigns into
are embedded as `Option` association lists; Go's `m[k] = v` panics when `m`
is nil. -/
structure ConfigMap where
  name : String
  nspace : String
  labels : List (String × String)
  annotations : Option (List (String × String))
  data : List (String × String)
  binaryData : Option (List (String × String))
deriving DecidableEq

/-- Go map assignment `m[k] = v` on the association-list embedding: replace
the binding when the key is present, append it otherwise. -/
def setKey : List (String × String) → String → String → List (String × String)
  | [], k, v => [(k, v)]
  | (k0, v0) :: rest, k, v =>
    if k0 = k then (k, v) :: rest else (k0, v0) :: setKey rest k v

/-- Go map lookup on the association-list embedding. -/
def lookupKey : List (String × String) → String → Option String
  | [], _ => none
  | (k0, v0) :: rest, k => if k0 = k then some v0 else lookupKey rest k

/-- Outcome of the initial `cfg.Get` call, as seen by `updateConfigMap`. -/
inductive GetOutcome where
  | found (cm : ConfigMap)
  | notFound
  | otherErr
deriving DecidableEq

/-- Outcome of one `updateConfigMap` call: the `Get` error returned, a
nil-map assignment panic, or the object handed to `Update` (flag `true`) /
`Create` (flag `false`). -/
inductive PersistOutcome where
  | err
  | panicked
  | wrote (cm : ConfigMap) (wasUpdate : Bool)
deriving DecidableEq

/-- The two map assignments `confMap.BinaryData["regions"] = data` and
`confMap.Annotations["last-update"] = ...` of src/unnamed/part_000, in source
order: assigning into a nil Go map panics (`none`). -/
def assignPayload (cm : ConfigMap) (payload now : String) : Option ConfigMap :=
  match cm.binaryData with
  | none => none
  | some bd =>
    match cm.annotations with
    | none => none
    | some ann =>
      some { cm with
        binaryData := some (setKey bd "regions" payload)
        annotations := some (setKey ann "last-update" now) }

/-- `updateConfigMap` from src/unnamed/part_000, given the `Get` outcome, the
target namespace, the already-serialized payload and the current timestamp
string: any `Get` error other than NotFound is returned; on NotFound a fresh
object with explicitly allocated (non-nil) empty maps is built; then in both
remaining cases `BinaryData["regions"]` and `Annotations["last-update"]` are
assigned — panicking if the fetched object carries a nil map — and the object
is sent to `Update` when it existed, `Create` otherwise. -/
def updateConfigMap (got : GetOutcome) (nspace payload now : String) : PersistOutcome :=
  match got with
  | .otherErr => .err
  | .notFound =>
    let confMap : ConfigMap :=
      { name := defaultConfMapName
        nspace := nspace
        labels := []
        annotations := some []
        data := []
        binaryData := some [] }
    match assignPayload confMap payload now with
    | none => .panicked
    | some cm2 => .wrote cm2 false
  | .found cm =>
    match assignPayload cm payload now with
    | none => .panicked
    | some cm2 => .wrote cm2 true

/-! ### YAML payload codec

`updateConfigMap` serializes the snapshot with `yaml.Marshal(regions)`
(gopkg.in/yaml.v3). The codec is embedded at the YAML node level, following
the `yaml:"..."` struct tags of region/types.go and the library's reflection
rules: struct fields are emitted in declaration order under their tag names;
an `omitempty` field is omitted when its value is empty (false for booleans,
length 0 for slices); a nil pointer is emitted as null; `time.Duration`
(int64 kind) is emitted as an integer. Decoding leaves the Go zero value for
a missing key and fails on a mistyped node. -/

/-- A YAML node. -/
inductive Yaml where
  | nullVal
  | boolVal (b : Bool)
  | intVal (n : Int)
  | strVal (s : String)
  | seqVal (xs : List Yaml)
  | mapVal (kvs : List (String × Yaml))

/-- Key lookup among the entries of a YAML mapping node. -/
def lookupYaml : List (String × Yaml) → String → Option Yaml
  | [], _ => none
  | (k0, v) :: rest, k => if k0 = k then some v else lookupYaml rest k

/-! #### `time.Duration` scalars

gopkg.in/yaml.v3 special-cases `time.Duration`: marshalling emits the
`Duration.String()` scalar (e.g. "50ms"), and unmarshalling a string scalar
into a `time.Duration` field goes through `time.ParseDuration` (an integer
scalar is still set directly as nanoseconds via reflection). Both Go
functions are embedded below over `List Char`. The embedding's integers are
unbounded, so the int64-overflow guards of `ParseDuration`, `leadingInt` and
`leadingFraction` are elided — no value this program round-trips approaches
them. `ParseDuration` computes a fractional component as
`float64(f) * (float64(unit) / scale)`; it is embedded as the exact integer
`f * unit / scale`, which coincides with the float64 computation whenever
`scale` divides `unit` and the product stays below 2^53 — in particular on
every string `Duration.String` produces, whose fraction never has more
digits than the precision of the printed unit. -/

/-- The decimal digit character for `n < 10`. -/
def digitChar (n : Nat) : Char := Char.ofNat (48 + n)

/-- The digit loop of Go `time.fmtInt` (`for v > 0`): prepends the decimal
digits of `v`. -/
def fmtIntAux (v : Nat) (acc : List Char) : List Char :=
  if h : v = 0 then acc
  else fmtIntAux (v / 10) (digitChar (v % 10) :: acc)
termination_by v
decreasing_by exact Nat.div_lt_self (Nat.pos_of_ne_zero h) (by decide)

/-- Go `time.fmtInt`: the decimal digits of `v`, "0" when `v` is zero. -/
def fmtInt (v : Nat) : List Char :=
  if v = 0 then ['0'] else fmtIntAux v []

/-- Go `time.fmtFrac`: processes `prec` digits of `v` least-significant
first, omitting trailing zeros, prepending a '.' when anything was printed;
returns the printed characters (prepended to `acc`) and `v / 10 ^ prec`. -/
def fmtFracAux (v : Nat) (prec : Nat) (printed : Bool) (acc : List Char) :
    List Char × Nat :=
  match prec with
  | 0 => (cond printed ('.' :: acc) acc, v)
  | p + 1 =>
    let digit := v % 10
    let printed2 := printed || (digit != 0)
    fmtFracAux (v / 10) p printed2 (cond printed2 (digitChar digit :: acc) acc)

/-- The unsigned body of Go `time.Duration.format`: sub-second magnitudes in
ns/µs/ms with a trimmed fraction, larger ones as `[Xh][Ym]Z[.F]s`. -/
def durCore (u : Nat) : List Char :=
  if u < 1000000000 then
    if u = 0 then
      ['0', 's']
    else if u < 1000 then
      fmtInt u ++ ['n', 's']
    else if u < 1000000 then
      fmtInt (fmtFracAux u 3 false []).2 ++ (fmtFracAux u 3 false []).1 ++ ['µ', 's']
    else
      fmtInt (fmtFracAux u 6 false []).2 ++ (fmtFracAux u 6 false []).1 ++ ['m', 's']
  else
    let sPart := fmtInt ((fmtFracAux u 9 false []).2 % 60)
      ++ (fmtFracAux u 9 false []).1 ++ ['s']
    let mins := (fmtFracAux u 9 false []).2 / 60
    if mins = 0 then sPart
    else
      let mPart := fmtInt (mins % 60) ++ ['m'] ++ sPart
      if mins / 60 = 0 then mPart
      else fmtInt (mins / 60) ++ ['h'] ++ mPart

/-- Go `time.Duration.format` / `Duration.String()`: the unsigned body with a
minus sign for negative durations. -/
def durFormat (d : Int) : List Char :=
  if d < 0 then '-' :: durCore d.natAbs else durCore d.natAbs

/-- One digit step of decimal accumulation: `acc*10 + (c - '0')`. -/
def digitStep (acc : Nat) (c : Char) : Nat := acc * 10 + (c.toNat - 48)

/-- Go `time.leadingInt`: consume leading decimal digits, accumulating their
value (overflow guard elided). -/
def leadingIntAux (acc : Nat) : List Char → Nat × List Char
  | [] => (acc, [])
  | c :: rest =>
    if c.isDigit then leadingIntAux (digitStep acc c) rest
    else (acc, c :: rest)

/-- Go `time.leadingFraction`: consume leading decimal digits after the
point, accumulating the value and the scale 10^digits (overflow handling
elided). -/
def leadingFractionAux (x scale : Nat) : List Char → Nat × Nat × List Char
  | [] => (x, scale, [])
  | c :: rest =>
    if c.isDigit then leadingFractionAux (digitStep x c) (scale * 10) rest
    else (x, scale, c :: rest)

/-- The fraction step of `ParseDuration`'s component loop: on a '.' consume
the fractional digits; returns (f, scale, remainder, post). -/
def parseFrac (s : List Char) : Nat × Nat × List Char × Bool :=
  match s with
  | c :: r =>
    if c = '.' then
      let q := leadingFractionAux 0 1 r
      (q.1, q.2.1, q.2.2, decide (q.2.2.length ≠ r.length))
    else (0, 1, s, false)
  | [] => (0, 1, s, false)

/-- The unit scan of `ParseDuration`: take characters up to the next digit or
point. -/
def takeUnit : List Char → List Char × List Char
  | [] => ([], [])
  | c :: rest =>
    if c == '.' || c.isDigit then ([], c :: rest)
    else
      let p := takeUnit rest
      (c :: p.1, p.2)

/-- `ParseDuration`'s unit table (ns, us/µs/μs, ms, s, m, h in
nanoseconds). -/
def unitMap : List Char → Option Nat
  | ['n', 's'] => some 1
  | ['u', 's'] => some 1000
  | ['µ', 's'] => some 1000
  | ['μ', 's'] => some 1000
  | ['m', 's'] => some 1000000
  | ['s'] => some 1000000000
  | ['m'] => some 60000000000
  | ['h'] => some 3600000000000
  | _ => none

/-- Whether `ParseDuration`'s component loop may start here: a digit or a
point. -/
def headOK : List Char → Bool
  | [] => false
  | c :: _ => c == '.' || c.isDigit

/-- One component (`[0-9]*(\.[0-9]*)?unit`) of `ParseDuration`: its value in
nanoseconds and the remainder. -/
def parseOne (s : List Char) : Option (Nat × List Char) :=
  if headOK s then
    let p1 := leadingIntAux 0 s
    let p2 := parseFrac p1.2
    if decide (p1.2.length ≠ s.length) || p2.2.2.2 then
      let sp := takeUnit p2.2.2.1
      if sp.1.isEmpty then none
      else
        match unitMap sp.1 with
        | none => none
        | some unitVal => some (p1.1 * unitVal + p2.1 * unitVal / p2.2.1, sp.2)
    else none
  else none

/-- `ParseDuration`'s component loop, summing component values until the
input is exhausted; the guard that each component consumes input mirrors the
loop's progress. -/
def parseComponents (s : List Char) (d : Nat) : Option Nat :=
  match s with
  | [] => some d
  | c :: cs =>
    match parseOne (c :: cs) with
    | none => none
    | some (v, rest) =>
      if h : rest.length < (c :: cs).length then parseComponents rest (d + v)
      else none
termination_by s.length
decreasing_by exact h

/-- Go `time.ParseDuration` over the characters of the input: optional sign,
the "0" special case, then the component loop. -/
def parseDuration (s : List Char) : Option Int :=
  let sgn : Bool × List Char :=
    match s with
    | c :: rest =>
      if c = '-' then (true, rest)
      else if c = '+' then (false, rest)
      else (false, s)
    | [] => (false, s)
  if sgn.2 = ['0'] then some 0
  else if sgn.2 = [] then none
  else
    match parseComponents sgn.2 0 with
    | none => none
    | some d => some (if sgn.1 then -(d : Int) else (d : Int))

/-- Encoding of `Server` (tags: latency, ip, cn, van with omitempty). A
present `*time.Duration` is marshalled by yaml.v3 as the `Duration.String()`
scalar; a nil one as null. -/
def encodeServer (s : Server) : Yaml :=
  .mapVal
    ([("latency", match s.Latency with
        | none => Yaml.nullVal
        | some d => Yaml.strVal (String.mk (durFormat d))),
      ("ip", Yaml.strVal s.IP),
      ("cn", Yaml.strVal s.CN)]
      ++ (if s.VAN then [("van", Yaml.boolVal true)] else []))

/-- A mapping entry for a server-family list under `omitempty`: omitted when
the list is empty. -/
def entryIfNonEmpty (k : String) (l : List Server) : List (String × Yaml) :=
  if l.isEmpty then [] else [(k, Yaml.seqVal (l.map encodeServer))]

/-- The mapping entries of an encoded `ServersList` (tags: ikev2, meta,
ovpntcp, ovpnudp, wg — all omitempty). -/
def slEntries (sl : ServersList) : List (String × Yaml) :=
  entryIfNonEmpty "ikev2" sl.IkeV2
    ++ (entryIfNonEmpty "meta" sl.Meta
      ++ (entryIfNonEmpty "ovpntcp" sl.OpenVPNTCP
        ++ (entryIfNonEmpty "ovpnudp" sl.OpenVPNUDP
          ++ entryIfNonEmpty "wg" sl.WireGuard)))

/-- Encoding of `ServersList`. -/
def encodeServersList (sl : ServersList) : Yaml :=
  .mapVal (slEntries sl)

/-- Encoding of `Region` (tags: id, name, country, autoRegion, dns,
portForward, geo, offline, servers — none omitempty; a nil `Servers` pointer
becomes null). -/
def encodeRegion (r : Region) : Yaml :=
  .mapVal
    [("id", Yaml.strVal r.ID),
     ("name", Yaml.strVal r.Name),
     ("country", Yaml.strVal r.Country),
     ("autoRegion", Yaml.boolVal r.AutoRegion),
     ("dns", Yaml.strVal r.DNS),
     ("portForward", Yaml.boolVal r.PortForward),
     ("geo", Yaml.boolVal r.Geo),
     ("offline", Yaml.boolVal r.Offline),
     ("servers", match r.Servers with
       | none => Yaml.nullVal
       | some sl => encodeServersList sl)]

/-- `yaml.Marshal(regions)`: the payload node for a region list. -/
def encodeRegions (rs : List Region) : Yaml :=
  .seqVal (rs.map encodeRegion)

/-- Decoding of a string struct field: Go zero value on a missing key. -/
def decodeStrField (kvs : List (String × Yaml)) (k : String) : Option String :=
  match lookupYaml kvs k with
  | none => some ""
  | some (.strVal s) => some s
  | some _ => none

/-- Decoding of a boolean struct field: Go zero value on a missing key. -/
def decodeBoolField (kvs : List (String × Yaml)) (k : String) : Option Bool :=
  match lookupYaml kvs k with
  | none => some false
  | some (.boolVal b) => some b
  | some _ => none

/-- Decoding of a `*time.Duration` struct field: nil on a missing key or a
null node; a string scalar goes through `time.ParseDuration` (failing on a
malformed duration); an integer scalar is set directly as nanoseconds by
reflection. -/
def decodeDurOptField (kvs : List (String × Yaml)) (k : String) : Option (Option Duration) :=
  match lookupYaml kvs k with
  | none => some none
  | some .nullVal => some none
  | some (.strVal s) =>
    match parseDuration s.data with
    | none => none
    | some d => some (some d)
  | some (.intVal n) => some (some n)
  | some _ => none

/-- Decoding of one `Server` node. -/
def decodeServer (y : Yaml) : Option Server :=
  match y with
  | .mapVal kvs => do
    let lat ← decodeDurOptField kvs "latency"
    let ip ← decodeStrField kvs "ip"
    let cn ← decodeStrField kvs "cn"
    let van ← decodeBoolField kvs "van"
    some { Latency := lat, IP := ip, CN := cn, VAN := van }
  | _ => none

/-- Decoding of a sequence of `Server` nodes. -/
def decodeServerSeq : List Yaml → Option (List Server)
  | [] => some []
  | y :: ys => do
    let s ← decodeServer y
    let rest ← decodeServerSeq ys
    some (s :: rest)

/-- Decoding of a `[]*Server` struct field: Go zero value (empty) on a
missing key. -/
def decodeServersField (kvs : List (String × Yaml)) (k : String) : Option (List Server) :=
  match lookupYaml kvs k with
  | none => some []
  | some (.seqVal xs) => decodeServerSeq xs
  | some _ => none

/-- Decoding of a `ServersList` mapping node. -/
def decodeServersList (kvs : List (String × Yaml)) : Option ServersList := do
  let ikev2 ← decodeServersField kvs "ikev2"
  let meta ← decodeServersField kvs "meta"
  let ovpntcp ← decodeServersField kvs "ovpntcp"
  let ovpnudp ← decodeServersField kvs "ovpnudp"
  let wg ← decodeServersField kvs "wg"
  some { IkeV2 := ikev2, Meta := meta, OpenVPNTCP := ovpntcp,
         OpenVPNUDP := ovpnudp, WireGuard := wg }

/-- Decoding of the `*ServersList` field of a region: nil on a missing key or
a null node. -/
def decodeServersPtrField (kvs : List (String × Yaml)) : Option (Option ServersList) :=
  match lookupYaml kvs "servers" with
  | none => some none
  | some .nullVal => some none
  | some (.mapVal m) => (decodeServersList m).map some
  | some _ => none

/-- Decoding of one `Region` node. -/
def decodeRegion (y : Yaml) : Option Region :=
  match y with
  | .mapVal kvs => do
    let id ← decodeStrField kvs "id"
    let name ← decodeStrField kvs "name"
    let country ← decodeStrField kvs "country"
    let autoRegion ← decodeBoolField kvs "autoRegion"
    let dns ← decodeStrField kvs "dns"
    let portForward ← decodeBoolField kvs "portForward"
    let geo ← decodeBoolField kvs "geo"
    let offline ← decodeBoolField kvs "offline"
    let servers ← decodeServersPtrField kvs
    some { ID := id, Name := name, Country := country, AutoRegion := autoRegion,
           DNS := dns, PortForward := portForward, Geo := geo, Offline := offline,
           Servers := servers }
  | _ => none

/-- Decoding of a sequence of `Region` nodes. -/
def decodeRegionSeq : List Yaml → Option (List Region)
  | [] => some []
  | y :: ys => do
    let r ← decodeRegion y
    let rest ← decodeRegionSeq ys
    some (r :: rest)

/-- `yaml.Unmarshal` of the persisted payload into `[]*Region`. -/
def decodeRegions (y : Yaml) : Option (List Region) :=
  match y with
  | .seqVal xs => decodeRegionSeq xs
  | _ => none

/-! ### Concrete example values used by witnesses and counterexamples -/

/-- A region with a nil `Servers` pointer. -/
def regionA : Region :=
  { ID := "a1", Name := "a", Country := "", AutoRegion := false, DNS := "",
    PortForward := false, Geo := false, Offline := false, Servers := none }

/-- A second region, with a later name. -/
def regionB : Region :=
  { regionA with ID := "b1", Name := "b" }

/-- A ranking entry with an absent latency. -/
def entryNilA : ServerLatency := { Latency := none, Region := regionA }

/-- A ranking entry with latency 1ns on the later-named region. -/
def entryOneB : ServerLatency := { Latency := some 1, Region := regionB }

/-- A ranking entry with latency 5ns. -/
def entryFiveA : ServerLatency := { Latency := some 5, Region := regionA }

/-- A ranking entry with latency 3ns and the same region name as
`entryFiveA`. -/
def entryThreeA : ServerLatency := { Latency := some 3, Region := regionA }

/-- A WireGuard server with no measured latency (as fetched). -/
def wgServer : Server := { Latency := none, IP := "10.0.0.1", CN := "cn1", VAN := false }

/-- A region with exactly one WireGuard server. -/
def regionOneServer : Region :=
  { regionA with Servers := some { ServersList.empty with WireGuard := [wgServer] } }

/-- A region with a `Servers` value whose WireGuard list is empty. -/
def regionEmptyWG : Region :=
  { regionA with Servers := some ServersList.empty }

/-- A probed WireGuard server carrying a measured latency. -/
def wgServerProbed : Server := { Latency := some 7, IP := "10.0.0.1", CN := "cn1", VAN := false }

/-- A probed region with one successfully probed WireGuard server. -/
def regionProbed : Region :=
  { regionA with Servers := some { ServersList.empty with WireGuard := [wgServerProbed] } }

/-! ### Claims about the ranking comparators -/

/-- Claim C3, counterexample: the claim asserts that every one of the four
comparators returns false and never panics when either latency is absent. On
the name comparators this fails twice over: with an absent left latency and
names "a" < "b", `byLowerRegionName.Less` returns true (not false); with
equal names and an absent latency it dereferences the nil latency, a panic
(embedded as `none`). -/
theorem c3_counterexample :
    byLowerRegionNameLess entryNilA entryOneB = some true ∧
    byLowerRegionNameLess entryNilA entryNilA = none := by
  have hab : ("a" : String) < "b" := by simp; decide
  constructor
  · simp [byLowerRegionNameLess, entryNilA, entryOneB, regionA, regionB, hab]
  · simp [byLowerRegionNameLess, entryNilA, regionA]

/-- Claim C3, amended: for the two latency comparators (`byLowerLatency.Less`
and `byGreaterLatency.Less`), if either entry's latency is absent, `Less`
returns false and never panics; absence is never treated as an infinitely
fast latency. (The two name comparators do not satisfy this: they decide by
name alone when names differ and dereference both latencies unconditionally
when names are equal.) -/
theorem c3_latency_nil_noop (a b : ServerLatency)
    (h : a.Latency = none ∨ b.Latency = none) :
    byLowerLatencyLess a b = false ∧ byGreaterLatencyLess a b = false := by
  cases ha : a.Latency <;> cases hb : b.Latency <;>
    simp_all [byLowerLatencyLess, byGreaterLatencyLess]

/-- Claim C3, witness: the amended theorem applied to a concrete pair with an
absent left latency. -/
theorem c3_latency_nil_noop_witness :
    byLowerLatencyLess entryNilA entryOneB = false ∧
    byGreaterLatencyLess entryNilA entryOneB = false :=
  c3_latency_nil_noop entryNilA entryOneB (Or.inl rfl)

/-- Claim C4: for two entries with equal region names and both latencies
present, both name comparators order the entry with the greater latency
first — the tie-break is descending latency regardless of the name
direction. -/
theorem c4_name_tiebreak_descending (a b : ServerLatency) (la lb : Duration)
    (hn : a.Region.Name = b.Region.Name)
    (ha : a.Latency = some la) (hb : b.Latency = some lb) :
    (byLowerRegionNameLess a b = some true ↔ lb < la) ∧
    (byGreaterRegionNameLess a b = some true ↔ lb < la) := by
  have h1 : ¬(a.Region.Name < b.Region.Name) := by rw [hn]; exact lt_irrefl _
  have h2 : ¬(b.Region.Name < a.Region.Name) := by rw [hn]; exact lt_irrefl _
  rw [byLowerRegionNameLess, byGreaterRegionNameLess, if_neg h1, if_neg h2,
    if_pos hn, ha, hb]
  simp

/-- Claim C4, witness: with equal names, latency 5 sorts before latency 3
under both name comparators (the scenario of §8 of the spec). -/
theorem c4_name_tiebreak_descending_witness :
    byLowerRegionNameLess entryFiveA entryThreeA = some true ∧
    byGreaterRegionNameLess entryFiveA entryThreeA = some true := by
  have h := c4_name_tiebreak_descending entryFiveA entryThreeA 5 3 rfl rfl rfl
  exact ⟨h.1.mpr (by decide), h.2.mpr (by decide)⟩

/-- Claim C5: on entries whose latencies are both present, the
descending-latency comparator is the exact transpose of the
ascending-latency one: `byGreaterLatency.Less(i, j) = byLowerLatency.Less(j,
i)`, so the two orders are exact reverses of each other. -/
theorem c5_latency_orders_reverse (a b : ServerLatency) (la lb : Duration)
    (ha : a.Latency = some la) (hb : b.Latency = some lb) :
    byGreaterLatencyLess a b = byLowerLatencyLess b a := by
  simp [byGreaterLatencyLess, byLowerLatencyLess, ha, hb]

/-- Claim C5, witness: the transpose identity at a concrete pair of probed
entries. -/
theorem c5_latency_orders_reverse_witness :
    byGreaterLatencyLess entryFiveA entryThreeA = byLowerLatencyLess entryThreeA entryFiveA :=
  c5_latency_orders_reverse entryFiveA entryThreeA 5 3 rfl rfl

/-! ### Claims about the worker pool -/

/-- The clone that a worker sends for a region with WireGuard servers: the
clone of the region with its WireGuard list replaced by the successfully
probed servers, each annotated with its latency. -/
def probedClone (probe : Server → Option Duration) (r : Region) (s : ServersList) : Region :=
  { cloneOf r s with
    Servers := some { ServersList.empty with WireGuard := probeServersB probe s.WireGuard } }

/-- The nil messages of the region/main.go inner loop: one per failed
probe. -/
lemma probeServersA_fst (probe : Server → Option Duration) (l : List Server) :
    (probeServersA probe l).1 =
      List.replicate (l.countP fun sv => (probe sv).isNone) none := by
  induction l with
  | nil => rfl
  | cons serv rest ih =>
    rw [probeServersA]
    cases hp : probe serv <;>
      simp [hp, ih, List.countP_cons, List.replicate_succ]

/-- The successful-server lists accumulated by the two inner-loop variants
coincide. -/
lemma probeServersA_snd (probe : Server → Option Duration) (l : List Server) :
    (probeServersA probe l).2 = probeServersB probe l := by
  induction l with
  | nil => rfl
  | cons serv rest ih =>
    rw [probeServersA]
    cases hp : probe serv <;> simp [hp, ih, probeServersB]

/-- Claim C1, counterexample: the claim says a worker sends exactly one
message per received Region. In the region/main.go worker, a region with one
WireGuard server whose probe fails produces two messages (a nil for the
failed probe, then the clone); in the `work` variant, a region whose
WireGuard list is empty produces zero messages (no no-signal result is
sent). -/
theorem c1_counterexample :
    (workerMessagesA (fun _ => none) regionOneServer).length = 2 ∧
    (workMessages (fun _ => none) regionEmptyWG).length = 0 := by
  constructor <;> rfl

/-- Claim C1, amended: for every Region received by a worker — in the
region/main.go worker goroutine, a region whose `Servers` pointer is nil or
whose WireGuard list is empty produces exactly one explicit no-signal (nil)
message, and a region with a non-empty WireGuard list produces one nil
message per server whose probe failed followed by exactly one cloned Region
whose WireGuard list contains exactly the servers whose probe succeeded, each
annotated with its measured latency (hence possibly more than one message per
Region); in the `work` function of the event-loop variants, a region with a
nil `Servers` pointer or an empty WireGuard list produces no message at all,
and a region with a non-empty WireGuard list produces exactly one message,
the same cloned filtered Region. -/
theorem c1_worker_messages (probe : Server → Option Duration) (r : Region) :
    (r.Servers = none →
      workerMessagesA probe r = [none] ∧ workMessages probe r = []) ∧
    (∀ s, r.Servers = some s → s.WireGuard = [] →
      workerMessagesA probe r = [none] ∧ workMessages probe r = []) ∧
    (∀ s, r.Servers = some s → s.WireGuard ≠ [] →
      workerMessagesA probe r =
        List.replicate (s.WireGuard.countP fun sv => (probe sv).isNone) none
          ++ [some (probedClone probe r s)] ∧
      workMessages probe r = [some (probedClone probe r s)]) := by
  refine ⟨fun h => ?_, fun s hs hw => ?_, fun s hs hw => ?_⟩
  · rw [workerMessagesA, workMessages, h]
    exact ⟨rfl, rfl⟩
  · rw [workerMessagesA, workMessages, hs]
    simp [hw]
  · rw [workerMessagesA, workMessages, hs]
    have hlen : ¬(s.WireGuard.length = 0) := by
      simpa [List.length_eq_zero] using hw
    simp only [if_neg hlen]
    rw [probeServersA_fst, probeServersA_snd]
    exact ⟨rfl, rfl⟩

/-- Claim C1, witness: the amended characterization applied to the concrete
failing-probe region (two messages, the second being the clone with an empty
WireGuard list). -/
theorem c1_worker_messages_witness :
    workerMessagesA (fun _ => none) regionOneServer =
      [none, some (probedClone (fun _ => none) regionOneServer
        { ServersList.empty with WireGuard := [wgServer] })] := by
  have h := ((c1_worker_messages (fun _ => none) regionOneServer).2.2
    { ServersList.empty with WireGuard := [wgServer] } rfl (by decide)).1
  simpa using h

/-! ### Claims about result collection -/

/-- Claim C2: every result Region taken from the result queue is appended to
the in-memory result set if and only if it is non-nil and its WireGuard list
is non-empty: after any sequence of result-channel messages that the
collection loop processes without panicking, the result set is the initial
set followed by exactly the kept messages (`keepProbed` filters out nil
messages and regions with an empty WireGuard list), and hence every region
newly present in the result set has a non-empty WireGuard list. -/
theorem c2_collect_filter (msgs : List (Option Region)) (acc final : List Region)
    (h : collectAll acc msgs = some final) :
    final = acc ++ msgs.filterMap keepProbed ∧
    ∀ r, r ∈ final → r ∉ acc → ∃ s, r.Servers = some s ∧ 0 < s.WireGuard.length := by
  have main : ∀ (ms : List (Option Region)) (a f : List Region),
      collectAll a ms = some f → f = a ++ ms.filterMap keepProbed := by
    intro ms
    induction ms with
    | nil =>
      intro a f hf
      rw [collectAll] at hf
      simpa using hf.symm
    | cons m rest ih =>
      intro a f hf
      rw [collectAll] at hf
      match m with
      | none =>
        have hstep : collectStep a none = some a := rfl
        rw [hstep] at hf
        simpa [keepProbed] using ih a f hf
      | some r =>
        match hsrv : r.Servers with
        | none =>
          rw [collectStep, hsrv] at hf
          exact absurd hf (by simp)
        | some s =>
          simp only [collectStep, hsrv] at hf
          by_cases hlen : 0 < s.WireGuard.length
          · rw [if_pos hlen] at hf
            have := ih (a ++ [r]) f hf
            simp [this, keepProbed, hsrv, hlen]
          · rw [if_neg hlen] at hf
            have := ih a f hf
            simp [this, keepProbed, hsrv, hlen]
  have hfinal := main msgs acc final h
  refine ⟨hfinal, fun r hr hnacc => ?_⟩
  rw [hfinal] at hr
  rcases List.mem_append.mp hr with hin | hin
  · exact absurd hin hnacc
  · rcases List.mem_filterMap.mp hin with ⟨m, _, hm⟩
    match m with
    | none => exact absurd hm (by simp [keepProbed])
    | some r0 =>
      match hsrv : r0.Servers with
      | none =>
        rw [keepProbed, hsrv] at hm
        exact absurd hm (by simp)
      | some s =>
        simp only [keepProbed, hsrv] at hm
        by_cases hlen : 0 < s.WireGuard.length
        · rw [if_pos hlen] at hm
          obtain rfl : r0 = r := by simpa using hm
          exact ⟨s, hsrv, hlen⟩
        · rw [if_neg hlen] at hm
          exact absurd hm (by simp)

/-- Claim C2, witness: a concrete run in which a probed region is kept while
an empty result and a nil message are dropped. -/
theorem c2_collect_filter_witness :
    ([regionProbed] : List Region) =
      [] ++ [some regionProbed, some regionEmptyWG, none].filterMap keepProbed ∧
    ∀ r, r ∈ ([regionProbed] : List Region) → r ∉ ([] : List Region) →
      ∃ s, r.Servers = some s ∧ 0 < s.WireGuard.length :=
  c2_collect_filter [some regionProbed, some regionEmptyWG, none] [] [regionProbed] (by rfl)

/-! ### Claim about the latency prober -/

/-- Claim C6: for a probed address whose physical connect time is
non-negative (the monotonic clock never measures a negative elapsed time),
every successful `calculateLatency` result is non-negative and at most the
configured max latency; and a connection attempt whose connect time exceeds
the max latency yields a Timeout-classified error and no latency result. -/
theorem c6_probe_latency_bounds (connectTime : Option Duration) (maxLatency : Duration)
    (hphys : ∀ t, connectTime = some t → 0 ≤ t) :
    (∀ d, calculateLatency connectTime maxLatency = .ok d → 0 ≤ d ∧ d ≤ maxLatency) ∧
    (∀ t, connectTime = some t → maxLatency < t →
      calculateLatency connectTime maxLatency = .error .timeout) := by
  match hc : connectTime with
  | none =>
    refine ⟨fun d hd => ?_, fun t ht _ => ?_⟩
    · exact absurd hd (by rw [calculateLatency, dialTimeout]; simp)
    · exact absurd ht (by simp)
  | some t =>
    have ht0 : 0 ≤ t := hphys t rfl
    by_cases hle : t ≤ maxLatency
    · refine ⟨fun d hd => ?_, fun t2 ht2 hgt => ?_⟩
      · rw [calculateLatency, dialTimeout, if_pos hle] at hd
        obtain rfl : t = d := by simpa using hd
        exact ⟨ht0, hle⟩
      · obtain rfl : t = t2 := by simpa using ht2
        exact absurd hle (not_le.mpr hgt)
    · refine ⟨fun d hd => ?_, fun t2 ht2 hgt => ?_⟩
      · rw [calculateLatency, dialTimeout, if_neg hle] at hd
        exact absurd hd (by simp)
      · rw [calculateLatency, dialTimeout, if_neg hle]

/-- Claim C6, witness: a 3ns connect time against a 10ns budget succeeds
within bounds, and the theorem also applies to the 50ms-versus-10ms timeout
scenario of §8. -/
theorem c6_probe_latency_bounds_witness :
    ((0 : Duration) ≤ 3 ∧ (3 : Duration) ≤ 10) ∧
    calculateLatency (some 50000000) 10000000 = .error .timeout := by
  refine ⟨?_, ?_⟩
  · exact (c6_probe_latency_bounds (some 3) 10 (by intro t ht; cases ht; decide)).1
      3 (by rfl)
  · exact (c6_probe_latency_bounds (some 50000000) 10000000
      (by intro t ht; cases ht; decide)).2 50000000 rfl (by decide)

/-! ### Claim about the snapshot persister -/

/-- A concrete existing ConfigMap with allocated maps, unrelated fields,
annotations and payload entries. -/
def cmEx : ConfigMap :=
  { name := "pia-regions", nspace := "ns", labels := [("l1", "v1")],
    annotations := some [("keep", "me")], data := [("d", "e")],
    binaryData := some [("other", "bytes")] }

/-- A concrete existing ConfigMap whose annotation and binary-data maps are
nil, as fetched for an object that has neither. -/
def cmNilMaps : ConfigMap :=
  { name := "pia-regions", nspace := "ns", labels := [], annotations := none,
    data := [], binaryData := none }

/-- Looking up the key just set finds the new value. -/
lemma lookupKey_setKey_self (m : List (String × String)) (k v : String) :
    lookupKey (setKey m k v) k = some v := by
  induction m with
  | nil => simp [setKey, lookupKey]
  | cons kv rest ih =>
    by_cases hk : kv.1 = k
    · simp [setKey, hk, lookupKey]
    · simp [setKey, hk, lookupKey, ih]

/-- Setting one key leaves every other key's binding unchanged. -/
lemma lookupKey_setKey_ne (m : List (String × String)) (k v k2 : String)
    (h : k2 ≠ k) :
    lookupKey (setKey m k v) k2 = lookupKey m k2 := by
  induction m with
  | nil => simp [setKey, lookupKey, Ne.symm h]
  | cons kv rest ih =>
    by_cases hk : kv.1 = k
    · subst hk
      simp [setKey, lookupKey, Ne.symm h]
    · simp [setKey, hk, lookupKey, ih]

/-- Claim C7, counterexample: the claim says that whenever the object exists,
only the "regions" payload entry and the "last-update" annotation are
overwritten and the rest is left unchanged. But an existing object fetched
with nil `BinaryData` and `Annotations` maps (an object that has neither)
makes `confMap.BinaryData["regions"] = data` assign into a nil Go map: the
program panics and no write happens at all. -/
theorem c7_counterexample :
    updateConfigMap (.found cmNilMaps) "ns" "p" "t" = .panicked := rfl

/-- Claim C7, amended: `updateConfigMap` returns any non-NotFound `Get` error
without writing; on NotFound it creates the object (with freshly allocated
maps) holding the serialized payload under "regions" and a "last-update"
timestamp annotation; when the object exists and its binary-data and
annotation maps are both present, it calls `Update` with the fetched object
in which only the "regions" payload entry and the "last-update" annotation
are overwritten — every other field, payload entry and annotation of the
fetched object unchanged; when the fetched object carries a nil binary-data
or annotation map, the map assignment panics and nothing is written. -/
theorem c7_update_config_map (nspace payload now : String) (cm0 : ConfigMap) :
    updateConfigMap .otherErr nspace payload now = .err ∧
    updateConfigMap .notFound nspace payload now =
      .wrote
        { name := defaultConfMapName, nspace := nspace, labels := [],
          annotations := some [("last-update", now)], data := [],
          binaryData := some [("regions", payload)] }
        false ∧
    (∀ bd ann, cm0.binaryData = some bd → cm0.annotations = some ann →
      updateConfigMap (.found cm0) nspace payload now =
        .wrote
          { cm0 with
            binaryData := some (setKey bd "regions" payload)
            annotations := some (setKey ann "last-update" now) }
          true ∧
      lookupKey (setKey bd "regions" payload) "regions" = some payload ∧
      lookupKey (setKey ann "last-update" now) "last-update" = some now ∧
      (∀ k, k ≠ "regions" →
        lookupKey (setKey bd "regions" payload) k = lookupKey bd k) ∧
      (∀ k, k ≠ "last-update" →
        lookupKey (setKey ann "last-update" now) k = lookupKey ann k)) ∧
    ((cm0.binaryData = none ∨ cm0.annotations = none) →
      updateConfigMap (.found cm0) nspace payload now = .panicked) := by
  refine ⟨rfl, rfl, fun bd ann hbd hann => ?_, fun h => ?_⟩
  · refine ⟨?_, lookupKey_setKey_self _ _ _, lookupKey_setKey_self _ _ _,
      fun k hk => lookupKey_setKey_ne _ _ _ _ hk,
      fun k hk => lookupKey_setKey_ne _ _ _ _ hk⟩
    simp only [updateConfigMap, assignPayload, hbd, hann]
  · rcases h with hbd | hann
    · simp only [updateConfigMap, assignPayload, hbd]
    · cases hbd2 : cm0.binaryData <;>
        simp only [updateConfigMap, assignPayload, hbd2, hann]

/-- Claim C7, witness: persisting over the concrete `cmEx` (allocated maps)
writes the payload and leaves the unrelated "keep" annotation intact. -/
theorem c7_update_config_map_witness :
    lookupKey (setKey [("other", "bytes")] "regions" "p") "regions" = some "p" ∧
    lookupKey (setKey [("keep", "me")] "last-update" "t") "keep" =
      lookupKey [("keep", "me")] "keep" := by
  have h := (c7_update_config_map "ns" "p" "t" cmEx).2.2.1
    [("other", "bytes")] [("keep", "me")] rfl rfl
  exact ⟨h.2.1, h.2.2.2.2 "keep" (by decide)⟩

/-! ### Claim about the workers flag -/

/-- Claim C9: when the workers flag is 0 and every other flag is valid,
startup validation succeeds, emits the "invalid workers flag provided" debug
line, and returns the options unchanged — the value is not replaced with the
default despite the log message announcing a reset; the worker-start loop
then spawns no worker, so there is no worker to consume any Region placed on
the request queue. -/
theorem c9_zero_workers_never_consume (o : Options)
    (hw : o.workers = 0)
    (hv : ¬(o.verbosity < 0 ∨ 3 < o.verbosity))
    (hl : ¬(o.maxLatency = 0))
    (hob : equalFold o.orderBy "name" ∨ equalFold o.orderBy "latency")
    (hod : equalFold o.orderDirection "asc" ∨ equalFold o.orderDirection "desc") :
    validateOptions o = some (o, true) ∧
    o.workers ≠ defaultWorkersNumber ∧
    spawnWorkers o.workers = [] ∧
    ∀ i, i ∈ spawnWorkers o.workers → False := by
  refine ⟨?_, ?_, ?_, ?_⟩
  · rw [validateOptions, if_neg hv, if_neg hl, if_neg (not_not_intro hob),
      if_neg (not_not_intro hod), hw]
    rfl
  · rw [hw, defaultWorkersNumber]
    decide
  · rw [hw, spawnWorkers, List.range_zero]
  · intro i hi
    rw [hw, spawnWorkers, List.range_zero] at hi
    exact absurd hi (List.not_mem_nil i)

/-- A full options value with workers = 0 and every other flag at its
default. -/
def optsZeroWorkers : Options :=
  { maxLatency := 50000000, workers := 0, maxServers := 25,
    serversListURL := "https://serverlist.piaservers.net/vpninfo/servers/v6",
    orderBy := "name", orderDirection := "asc", verbosity := 1 }

/-- Claim C9, witness: the theorem applied to the concrete zero-workers
options. -/
theorem c9_zero_workers_never_consume_witness :
    validateOptions optsZeroWorkers = some (optsZeroWorkers, true) ∧
    optsZeroWorkers.workers ≠ defaultWorkersNumber ∧
    spawnWorkers optsZeroWorkers.workers = [] ∧
    ∀ i, i ∈ spawnWorkers optsZeroWorkers.workers → False :=
  c9_zero_workers_never_consume optsZeroWorkers rfl (by decide) (by decide)
    (Or.inl (by decide)) (Or.inl (by decide))

/-! ### Claim about Region.Clone -/

/-- Claim C10: for every Region whose `Servers` pointer is non-nil, `Clone`
returns a Region equal to the original in ID, Name, Country, AutoRegion,
DNS, PortForward, Geo and Offline, whose WireGuard list is an element-wise
copy of the original's (`Server.Clone` copies IP, CN, VAN and the latency
value, so each copy equals its source as a value), and whose IkeV2, Meta,
OpenVPNTCP and OpenVPNUDP lists are empty regardless of the original's
contents; the copy shares no data with the original (in this value-level
embedding: the clone's server list is exactly the element-wise value copy). -/
theorem c10_clone_shape (r : Region) (s : ServersList) (h : r.Servers = some s) :
    Region.clone r = some (cloneOf r s) ∧
    (cloneOf r s).ID = r.ID ∧ (cloneOf r s).Name = r.Name ∧
    (cloneOf r s).Country = r.Country ∧ (cloneOf r s).AutoRegion = r.AutoRegion ∧
    (cloneOf r s).DNS = r.DNS ∧ (cloneOf r s).PortForward = r.PortForward ∧
    (cloneOf r s).Geo = r.Geo ∧ (cloneOf r s).Offline = r.Offline ∧
    (cloneOf r s).Servers = some { IkeV2 := [], Meta := [], OpenVPNTCP := [], OpenVPNUDP := [], WireGuard := s.WireGuard.map Server.clone } ∧
    (∀ sv : Server, Server.clone sv = sv) ∧
    s.WireGuard.map Server.clone = s.WireGuard := by
  have hsv : ∀ sv : Server, Server.clone sv = sv := by
    intro sv
    obtain ⟨lat, ip, cn, van⟩ := sv
    cases lat <;> rfl
  refine ⟨?_, rfl, rfl, rfl, rfl, rfl, rfl, rfl, rfl, rfl, hsv, ?_⟩
  · rw [Region.clone, h]
  · rw [funext hsv]
    exact List.map_id s.WireGuard

/-- Claim C10, witness: `Clone` of the concrete one-server region. -/
theorem c10_clone_shape_witness :
    Region.clone regionOneServer =
      some (cloneOf regionOneServer { ServersList.empty with WireGuard := [wgServer] }) ∧
    (cloneOf regionOneServer { ServersList.empty with WireGuard := [wgServer] }).Servers =
      some { IkeV2 := [], Meta := [], OpenVPNTCP := [], OpenVPNUDP := [], WireGuard := [wgServer].map Server.clone } := by
  have h := c10_clone_shape regionOneServer
    { ServersList.empty with WireGuard := [wgServer] } rfl
  exact ⟨h.1, h.2.2.2.2.2.2.2.2.2.1⟩

/-! ### Claim about the persistence payload codec -/

/-- The number of decimal digits `fmtIntAux` emits. -/
def numDigits (v : Nat) : Nat :=
  if h : v = 0 then 0 else numDigits (v / 10) + 1
termination_by v
decreasing_by exact Nat.div_lt_self (Nat.pos_of_ne_zero h) (by decide)

/-- Whether a character list starts with a decimal digit. -/
def headIsDigit : List Char → Bool
  | [] => false
  | c :: _ => c.isDigit

/-- The value of a valid digit character. -/
lemma digitChar_toNat {n : Nat} (h : n < 10) : (digitChar n).toNat = 48 + n := by
  interval_cases n <;> decide

/-- A digit character is a digit. -/
lemma digitChar_isDigit {n : Nat} (h : n < 10) : (digitChar n).isDigit = true := by
  interval_cases n <;> decide

/-- A digit character is not a point. -/
lemma digitChar_ne_dot {n : Nat} (h : n < 10) : (digitChar n == '.') = false := by
  interval_cases n <;> decide

/-- A nonzero digit character is not '0'. -/
lemma digitChar_ne_zeroChar {n : Nat} (h : n < 10) (h0 : n ≠ 0) :
    (digitChar n == '0') = false := by
  interval_cases n <;> first | exact absurd rfl h0 | decide

/-- Unfolding `fmtIntAux` at zero. -/
lemma fmtIntAux_zero (acc : List Char) : fmtIntAux 0 acc = acc := by
  rw [fmtIntAux]
  simp

/-- Unfolding `fmtIntAux` at a nonzero value. -/
lemma fmtIntAux_succ {v : Nat} (h : v ≠ 0) (acc : List Char) :
    fmtIntAux v acc = fmtIntAux (v / 10) (digitChar (v % 10) :: acc) := by
  rw [fmtIntAux]
  simp [h]

/-- Unfolding `numDigits` at a nonzero value. -/
lemma numDigits_succ {v : Nat} (h : v ≠ 0) : numDigits v = numDigits (v / 10) + 1 := by
  rw [numDigits]
  simp [h]

/-- `fmtIntAux` prepends its digits to the accumulator. -/
lemma fmtIntAux_append (v : Nat) : ∀ acc, fmtIntAux v acc = fmtIntAux v [] ++ acc := by
  induction v using Nat.strong_induction_on with
  | _ v ih =>
    intro acc
    by_cases h : v = 0
    · subst h
      rw [fmtIntAux_zero, fmtIntAux_zero]
      rfl
    · have hlt : v / 10 < v := Nat.div_lt_self (Nat.pos_of_ne_zero h) (by decide)
      rw [fmtIntAux_succ h acc, fmtIntAux_succ h []]
      rw [ih _ hlt (digitChar (v % 10) :: acc), ih _ hlt [digitChar (v % 10)]]
      simp

/-- Folding the digit step over `fmtIntAux` recovers the value. -/
lemma fmtIntAux_foldl (v : Nat) : ∀ (a : Nat) (acc : List Char),
    List.foldl digitStep a (fmtIntAux v acc) =
      List.foldl digitStep (a * 10 ^ numDigits v + v) acc := by
  induction v using Nat.strong_induction_on with
  | _ v ih =>
    intro a acc
    by_cases h : v = 0
    · subst h
      rw [fmtIntAux_zero, numDigits]
      simp
    · have hlt : v / 10 < v := Nat.div_lt_self (Nat.pos_of_ne_zero h) (by decide)
      rw [fmtIntAux_succ h acc, numDigits_succ h, ih _ hlt]
      have hd : digitStep (a * 10 ^ numDigits (v / 10) + v / 10) (digitChar (v % 10)) =
          a * 10 ^ (numDigits (v / 10) + 1) + v := by
        rw [digitStep, digitChar_toNat (Nat.mod_lt _ (by decide)), pow_succ, ← mul_assoc]
        omega
      rw [List.foldl_cons, hd]

/-- Every character `fmtIntAux` emits is a digit. -/
lemma fmtIntAux_all_digits (v : Nat) : ∀ c ∈ fmtIntAux v [], c.isDigit = true := by
  induction v using Nat.strong_induction_on with
  | _ v ih =>
    intro c hc
    by_cases h : v = 0
    · subst h
      rw [fmtIntAux_zero] at hc
      simp at hc
    · have hlt : v / 10 < v := Nat.div_lt_self (Nat.pos_of_ne_zero h) (by decide)
      rw [fmtIntAux_succ h, fmtIntAux_append] at hc
      rcases List.mem_append.mp hc with hc2 | hc2
      · exact ih _ hlt c hc2
      · obtain rfl : c = digitChar (v % 10) := by simpa using hc2
        exact digitChar_isDigit (Nat.mod_lt _ (by decide))

/-- `fmtInt` is never empty. -/
lemma fmtInt_ne_nil (v : Nat) : fmtInt v ≠ [] := by
  rw [fmtInt]
  by_cases h : v = 0
  · simp [h]
  · simp only [h, ite_false]
    rw [fmtIntAux_succ h, fmtIntAux_append]
    simp

/-- Every character of `fmtInt` is a digit. -/
lemma fmtInt_all_digits (v : Nat) : ∀ c ∈ fmtInt v, c.isDigit = true := by
  rw [fmtInt]
  by_cases h : v = 0
  · simp [h]
  · simp only [h, ite_false]
    exact fmtIntAux_all_digits v

/-- Folding the digit step over `fmtInt` recovers the value. -/
lemma fmtInt_foldl (v : Nat) : List.foldl digitStep 0 (fmtInt v) = v := by
  rw [fmtInt]
  by_cases h : v = 0
  · simp [h, digitStep]
  · simp only [h, ite_false]
    rw [fmtIntAux_foldl]
    simp

/-- `leadingIntAux` consumes exactly a leading block of digits, folding their
value. -/
lemma leadingIntAux_spec (ds : List Char) : ∀ (acc : Nat) (rest : List Char),
    (∀ c ∈ ds, c.isDigit = true) → headIsDigit rest = false →
    leadingIntAux acc (ds ++ rest) = (List.foldl digitStep acc ds, rest) := by
  induction ds with
  | nil =>
    intro acc rest _ hrest
    match rest with
    | [] => rfl
    | c :: cs =>
      simp only [headIsDigit] at hrest
      simp [leadingIntAux, hrest]
  | cons d ds ih =>
    intro acc rest hds hrest
    rw [List.cons_append]
    have hd : d.isDigit = true := hds d (by simp)
    simp only [leadingIntAux, hd, if_true]
    rw [ih _ _ (fun c hc => hds c (by simp [hc])) hrest]
    simp

/-- `leadingIntAux` at zero on an encoded integer followed by a non-digit. -/
lemma leadingInt_fmtInt (v : Nat) (rest : List Char) (hrest : headIsDigit rest = false) :
    leadingIntAux 0 (fmtInt v ++ rest) = (v, rest) := by
  rw [leadingIntAux_spec _ _ _ (fmtInt_all_digits v) hrest, fmtInt_foldl]

/-- The `prec` least-significant decimal digits of `v`, most significant
first, zero-padded. -/
def padDigits : Nat → Nat → List Char
  | _, 0 => []
  | v, p + 1 => padDigits (v / 10) p ++ [digitChar (v % 10)]

/-- Remove the trailing '0' characters of a digit block. -/
def dropTrailingZeros (l : List Char) : List Char :=
  (l.reverse.dropWhile fun c => c == '0').reverse

/-- The characters `fmtFrac` prints for a fraction value `w < 10 ^ prec`:
nothing for zero, otherwise a point and the padded digits with trailing
zeros removed. -/
def frChars (w prec : Nat) : List Char :=
  if w = 0 then [] else '.' :: dropTrailingZeros (padDigits w prec)

/-- Whether `ParseDuration`'s unit scan stops at this list: empty, a digit or
a point. -/
def spanStopB : List Char → Bool
  | [] => true
  | c :: _ => c == '.' || c.isDigit

/-- `padDigits` has exactly `prec` characters. -/
lemma padDigits_length : ∀ (prec v : Nat), (padDigits v prec).length = prec := by
  intro prec
  induction prec with
  | zero => intro v; rfl
  | succ p ih =>
    intro v
    simp [padDigits, ih]

/-- Every `padDigits` character is a digit. -/
lemma padDigits_all_digits : ∀ (prec v : Nat), ∀ c ∈ padDigits v prec, c.isDigit = true := by
  intro prec
  induction prec with
  | zero => intro v c hc; simp [padDigits] at hc
  | succ p ih =>
    intro v c hc
    simp only [padDigits] at hc
    rcases List.mem_append.mp hc with hc2 | hc2
    · exact ih _ c hc2
    · obtain rfl : c = digitChar (v % 10) := by simpa using hc2
      exact digitChar_isDigit (Nat.mod_lt _ (by decide))

/-- Folding the digit step over `padDigits` recovers `v % 10 ^ prec`. -/
lemma padDigits_foldl : ∀ (prec v a : Nat),
    List.foldl digitStep a (padDigits v prec) = a * 10 ^ prec + v % 10 ^ prec := by
  intro prec
  induction prec with
  | zero => intro v a; simp [padDigits, Nat.mod_one]
  | succ p ih =>
    intro v a
    simp only [padDigits]
    rw [List.foldl_append, ih]
    simp only [List.foldl_cons, List.foldl_nil, digitStep]
    rw [digitChar_toNat (Nat.mod_lt _ (by decide)), pow_succ' 10 p, Nat.mod_mul,
      ← mul_assoc, mul_right_comm a 10 (10 ^ p)]
    omega

/-- `padDigits` depends only on `v % 10 ^ prec`. -/
lemma padDigits_mod : ∀ (prec v : Nat), padDigits v prec = padDigits (v % 10 ^ prec) prec := by
  intro prec
  induction prec with
  | zero => intro v; rfl
  | succ p ih =>
    intro v
    simp only [padDigits]
    have h1 : v % 10 ^ (p + 1) % 10 = v % 10 := by
      rw [pow_succ' 10 p]
      exact Nat.mod_mul_right_mod v 10 (10 ^ p)
    have h2 : v % 10 ^ (p + 1) / 10 = v / 10 % 10 ^ p := by
      rw [pow_succ' 10 p]
      exact Nat.mod_mul_right_div_self v 10 (10 ^ p)
    rw [h1, h2, ih (v / 10)]

/-- `fmtFracAux` in printing mode emits the point and all padded digits. -/
lemma fmtFracAux_printed : ∀ (prec v : Nat) (acc : List Char),
    fmtFracAux v prec true acc = ('.' :: (padDigits v prec ++ acc), v / 10 ^ prec) := by
  intro prec
  induction prec with
  | zero => intro v acc; simp [fmtFracAux, padDigits, Nat.div_one]
  | succ p ih =>
    intro v acc
    rw [fmtFracAux]
    simp only [Bool.true_or, Bool.cond_true]
    rw [ih (v / 10) (digitChar (v % 10) :: acc)]
    simp only [padDigits, pow_succ' 10 p]
    rw [Nat.div_div_eq_div_mul]
    simp

/-- `fmtFracAux` from the non-printing start: nothing when the fraction is
zero, otherwise the point and the digits with trailing zeros trimmed. -/
lemma fmtFracAux_spec : ∀ (prec v : Nat) (acc : List Char),
    fmtFracAux v prec false acc =
      ((if v % 10 ^ prec = 0 then acc
        else '.' :: (dropTrailingZeros (padDigits v prec) ++ acc)), v / 10 ^ prec) := by
  intro prec
  induction prec with
  | zero => intro v acc; simp [fmtFracAux, Nat.mod_one, Nat.div_one]
  | succ p ih =>
    intro v acc
    have hsplit : v % 10 ^ (p + 1) = v % 10 + 10 * (v / 10 % 10 ^ p) := by
      rw [pow_succ' 10 p]
      exact Nat.mod_mul
    have hdiv : v / 10 / 10 ^ p = v / 10 ^ (p + 1) := by
      rw [pow_succ' 10 p, Nat.div_div_eq_div_mul]
    rw [fmtFracAux]
    by_cases hd : v % 10 = 0
    · rw [hd]
      simp only [bne_self_eq_false, Bool.or_false, Bool.cond_false]
      rw [ih (v / 10) acc]
      have hiff : v % 10 ^ (p + 1) = 0 ↔ v / 10 % 10 ^ p = 0 := by omega
      have hdtz : dropTrailingZeros (padDigits v (p + 1)) =
          dropTrailingZeros (padDigits (v / 10) p) := by
        have hz : digitChar (v % 10) = '0' := by rw [hd]; rfl
        simp [padDigits, hz, dropTrailingZeros, List.dropWhile_cons]
      by_cases h0 : v / 10 % 10 ^ p = 0
      · simp [h0, hiff.mpr h0, hdiv]
      · have hne2 : ¬(v % 10 ^ (p + 1) = 0) := fun hh => h0 (hiff.mp hh)
        simp [h0, hne2, hdtz, hdiv]
    · have hbne : (v % 10 != 0) = true := by simpa using hd
      simp only [hbne, Bool.or_true, Bool.cond_true]
      rw [fmtFracAux_printed p (v / 10) (digitChar (v % 10) :: acc)]
      have hne : ¬(v % 10 ^ (p + 1) = 0) := by omega
      have hdtz : dropTrailingZeros (padDigits v (p + 1)) =
          padDigits (v / 10) p ++ [digitChar (v % 10)] := by
        have hz : (digitChar (v % 10) == '0') = false :=
          digitChar_ne_zeroChar (Nat.mod_lt _ (by decide)) hd
        simp [padDigits, dropTrailingZeros, List.dropWhile_cons, hz]
      simp [hne, hdtz, hdiv]

/-- The closed form of one `fmtFrac` call. -/
lemma fmtFrac_closed (v prec : Nat) :
    fmtFracAux v prec false [] = (frChars (v % 10 ^ prec) prec, v / 10 ^ prec) := by
  rw [fmtFracAux_spec, frChars, padDigits_mod prec v]
  by_cases h : v % 10 ^ prec = 0 <;> simp [h]

/-- A block of leading '0' characters reversed is itself a replicate. -/
lemma reverse_takeWhile_zeros (r : List Char) :
    (r.takeWhile fun c => c == '0').reverse =
      List.replicate (r.takeWhile fun c => c == '0').length '0' := by
  have htake : r.takeWhile (fun c => c == '0') =
      List.replicate (r.takeWhile fun c => c == '0').length '0' := by
    apply List.eq_replicate_of_mem
    intro c hc
    simpa using List.mem_takeWhile_imp hc
  conv_lhs => rw [htake]
  rw [List.reverse_replicate]

/-- Every digit block splits as its trimmed form plus trailing zeros. -/
lemma dropTrailingZeros_decomp (l : List Char) :
    ∃ z, l = dropTrailingZeros l ++ List.replicate z '0' := by
  refine ⟨(l.reverse.takeWhile fun c => c == '0').length, ?_⟩
  have hsplit := List.takeWhile_append_dropWhile (p := fun c => c == '0') (l := l.reverse)
  conv_lhs => rw [← l.reverse_reverse, ← hsplit, List.reverse_append]
  rw [reverse_takeWhile_zeros]
  rfl

/-- Folding the digit step over trailing zeros multiplies by their scale. -/
lemma foldl_replicate_zeros : ∀ (z a : Nat),
    List.foldl digitStep a (List.replicate z '0') = a * 10 ^ z := by
  intro z
  induction z with
  | zero => intro a; simp
  | succ n ih =>
    intro a
    rw [List.replicate_succ, List.foldl_cons, ih]
    have h0 : digitStep a '0' = a * 10 := by simp [digitStep]
    rw [h0, pow_succ' 10 n, ← mul_assoc]

/-- `leadingFractionAux` consumes exactly a leading block of digits, folding
the value and multiplying the scale per digit. -/
lemma leadingFractionAux_spec (ds : List Char) : ∀ (x sc : Nat) (rest : List Char),
    (∀ c ∈ ds, c.isDigit = true) → headIsDigit rest = false →
    leadingFractionAux x sc (ds ++ rest) =
      (List.foldl digitStep x ds, sc * 10 ^ ds.length, rest) := by
  induction ds with
  | nil =>
    intro x sc rest _ hrest
    match rest with
    | [] => simp [leadingFractionAux]
    | c :: cs =>
      simp only [headIsDigit] at hrest
      simp [leadingFractionAux, hrest]
  | cons d ds ih =>
    intro x sc rest hds hrest
    rw [List.cons_append]
    have hd : d.isDigit = true := hds d (by simp)
    simp only [leadingFractionAux, hd, if_true]
    rw [ih _ _ _ (fun c hc => hds c (by simp [hc])) hrest]
    simp only [List.foldl_cons, List.length_cons]
    rw [pow_succ' 10 ds.length, ← mul_assoc]

/-- The unit scan consumes exactly the unit characters. -/
lemma takeUnit_spec (u : List Char) : ∀ (rest : List Char),
    (∀ c ∈ u, (c == '.' || c.isDigit) = false) → spanStopB rest = true →
    takeUnit (u ++ rest) = (u, rest) := by
  induction u with
  | nil =>
    intro rest _ hrest
    match rest with
    | [] => rfl
    | c :: cs =>
      simp only [spanStopB] at hrest
      simp [takeUnit, hrest]
  | cons c u ih =>
    intro rest hu hrest
    rw [List.cons_append]
    have hc : (c == '.' || c.isDigit) = false := hu c (by simp)
    simp only [takeUnit, hc, Bool.false_eq_true, if_false]
    rw [ih _ (fun c2 hc2 => hu c2 (by simp [hc2])) hrest]

/-- An encoded integer starts with a digit, so the component loop may
start. -/
lemma headOK_fmtInt (v : Nat) (X : List Char) : headOK (fmtInt v ++ X) = true := by
  obtain ⟨hd, tl, heq⟩ := List.exists_cons_of_ne_nil (fmtInt_ne_nil v)
  have hdig : hd.isDigit = true := fmtInt_all_digits v hd (by rw [heq]; simp)
  rw [heq, List.cons_append]
  simp [headOK, hdig]

/-- The remainder after the integer digits is strictly shorter than the
component. -/
lemma length_ne_fmtInt_append (v : Nat) (X : List Char) :
    X.length ≠ (fmtInt v ++ X).length := by
  have hpos : 0 < (fmtInt v).length := List.length_pos.mpr (fmtInt_ne_nil v)
  simp only [List.length_append]
  omega

/-- One full `[digits][.fraction]unit` component of a formatted duration
parses to its value: the integer part times the unit plus the fraction times
the sub-scale `M = unitVal / 10 ^ prec`. -/
lemma parseOne_component (v w prec M : Nat) (hw : w < 10 ^ prec)
    (unitChars rest : List Char) (unitVal : Nat)
    (hunit : unitMap unitChars = some unitVal)
    (hM : unitVal = 10 ^ prec * M)
    (huc : ∀ c ∈ unitChars, (c == '.' || c.isDigit) = false)
    (hune : unitChars ≠ [])
    (hrest : spanStopB rest = true) :
    parseOne (fmtInt v ++ (frChars w prec ++ (unitChars ++ rest))) =
      some (v * unitVal + w * M, rest) := by
  obtain ⟨cu, us, rfl⟩ := List.exists_cons_of_ne_nil hune
  have hcu : (cu == '.' || cu.isDigit) = false := huc cu (by simp)
  obtain ⟨hcu_dot, hcu_dig⟩ := Bool.or_eq_false_iff.mp hcu
  have hcu_ne_dot : cu ≠ '.' := fun h => by rw [h] at hcu_dot; simp at hcu_dot
  have hhead_unit : headIsDigit ((cu :: us) ++ rest) = false := by
    simp [headIsDigit, hcu_dig]
  have htu : takeUnit ((cu :: us) ++ rest) = (cu :: us, rest) :=
    takeUnit_spec _ _ huc hrest
  by_cases hw0 : w = 0
  · subst hw0
    have hfr : frChars 0 prec = [] := by simp [frChars]
    rw [hfr, List.nil_append]
    have hlead : leadingIntAux 0 (fmtInt v ++ ((cu :: us) ++ rest)) =
        (v, (cu :: us) ++ rest) := leadingInt_fmtInt v _ hhead_unit
    have hpf : parseFrac ((cu :: us) ++ rest) = (0, 1, (cu :: us) ++ rest, false) := by
      rw [List.cons_append, parseFrac]
      simp [hcu_ne_dot]
    simp only [parseOne, headOK_fmtInt, if_true, hlead, hpf, htu]
    have hne := length_ne_fmtInt_append v ((cu :: us) ++ rest)
    simp [hne, hunit, hM, fmtInt_ne_nil v]
  · have hfr : frChars w prec = '.' :: dropTrailingZeros (padDigits w prec) := by
      simp [frChars, hw0]
    set ds := dropTrailingZeros (padDigits w prec) with hds_def
    obtain ⟨z, hz⟩ := dropTrailingZeros_decomp (padDigits w prec)
    have hlen : ds.length + z = prec := by
      have := padDigits_length prec w
      rw [hz] at this
      simpa using this
    have hval : (List.foldl digitStep 0 ds) * 10 ^ z = w := by
      have hfold := padDigits_foldl prec w 0
      rw [hz, List.foldl_append, foldl_replicate_zeros, Nat.mod_eq_of_lt hw] at hfold
      simpa using hfold
    have hds_digits : ∀ c ∈ ds, c.isDigit = true := by
      intro c hc
      exact padDigits_all_digits prec w c (by rw [hz]; exact List.mem_append_left _ hc)
    rw [hfr]
    have hlead : leadingIntAux 0
        (fmtInt v ++ (('.' :: ds) ++ ((cu :: us) ++ rest))) =
        (v, ('.' :: ds) ++ ((cu :: us) ++ rest)) := by
      apply leadingInt_fmtInt
      simp [headIsDigit]
    have hfrac : leadingFractionAux 0 1 (ds ++ ((cu :: us) ++ rest)) =
        (List.foldl digitStep 0 ds, 1 * 10 ^ ds.length, (cu :: us) ++ rest) :=
      leadingFractionAux_spec ds 0 1 _ hds_digits hhead_unit
    have hpf : parseFrac (('.' :: ds) ++ ((cu :: us) ++ rest)) =
        (List.foldl digitStep 0 ds, 1 * 10 ^ ds.length, (cu :: us) ++ rest,
          decide (((cu :: us) ++ rest).length ≠ (ds ++ ((cu :: us) ++ rest)).length)) := by
      rw [List.cons_append]
      simp only [parseFrac, if_true]
      rw [hfrac]
    have hpre : decide ((('.' :: ds) ++ ((cu :: us) ++ rest)).length ≠
        (fmtInt v ++ (('.' :: ds) ++ ((cu :: us) ++ rest))).length) = true :=
      decide_eq_true (length_ne_fmtInt_append v _)
    have harith : (List.foldl digitStep 0 ds) * unitVal / 10 ^ ds.length = w * M := by
      rw [hM, ← hlen, pow_add]
      have hrearr : (List.foldl digitStep 0 ds) * (10 ^ ds.length * 10 ^ z * M) =
          10 ^ ds.length * ((List.foldl digitStep 0 ds) * (10 ^ z * M)) := by ring
      rw [hrearr, Nat.mul_div_cancel_left _ (pow_pos (by decide : (0 : Nat) < 10) _),
        ← mul_assoc, hval]
    simp only [parseOne, headOK_fmtInt, if_true, hlead, hpf, htu, hpre, Bool.true_or]
    simp [hunit, harith]

/-- An encoded integer also stops the unit scan of the previous component. -/
lemma spanStopB_fmtInt (v : Nat) (X : List Char) : spanStopB (fmtInt v ++ X) = true := by
  obtain ⟨hd, tl, heq⟩ := List.exists_cons_of_ne_nil (fmtInt_ne_nil v)
  have hdig : hd.isDigit = true := fmtInt_all_digits v hd (by rw [heq]; simp)
  rw [heq, List.cons_append]
  simp [spanStopB, hdig]

/-- A component string headed by an encoded integer is a digit-headed cons
with a nonempty tail. -/
lemma head_shape_fmtInt (x : Nat) (L : List Char) (hL : L ≠ []) :
    ∃ c t, fmtInt x ++ L = c :: t ∧ c.isDigit = true ∧ t ≠ [] := by
  obtain ⟨hd, tl, heq⟩ := List.exists_cons_of_ne_nil (fmtInt_ne_nil x)
  refine ⟨hd, tl ++ L, by rw [heq, List.cons_append],
    fmtInt_all_digits x hd (by rw [heq]; simp), ?_⟩
  simp [hL]

/-- The component loop on a final component. -/
lemma parseComponents_single (comp : List Char) (val d : Nat)
    (hcomp : comp ≠ []) (hparse : parseOne comp = some (val, [])) :
    parseComponents comp d = some (d + val) := by
  obtain ⟨c, cs, rfl⟩ := List.exists_cons_of_ne_nil hcomp
  rw [parseComponents]
  simp [hparse, parseComponents]

/-- The component loop steps over one parsed component. -/
lemma parseComponents_step (comp rest2 : List Char) (val d : Nat)
    (hcomp : comp ≠ []) (hparse : parseOne (comp ++ rest2) = some (val, rest2)) :
    parseComponents (comp ++ rest2) d = parseComponents rest2 (d + val) := by
  obtain ⟨c, cs, rfl⟩ := List.exists_cons_of_ne_nil hcomp
  rw [List.cons_append] at hparse ⊢
  have hlt : rest2.length < (c :: (cs ++ rest2)).length := by
    simp only [List.length_cons, List.length_append]
    omega
  rw [parseComponents]
  simp only [hparse]
  rw [dif_pos hlt]

/-- A fraction-free component (`digits` plus unit) parses to its value. -/
lemma parseOne_int_unit (v M : Nat) (unitChars rest : List Char)
    (hunit : unitMap unitChars = some M)
    (huc : ∀ c ∈ unitChars, (c == '.' || c.isDigit) = false)
    (hune : unitChars ≠ []) (hrest : spanStopB rest = true) :
    parseOne (fmtInt v ++ (unitChars ++ rest)) = some (v * M, rest) := by
  have h := parseOne_component v 0 0 M (by decide) unitChars rest M hunit (by simp)
    huc hune hrest
  simpa [frChars] using h

/-- The unsigned duration body: the component loop recovers the magnitude,
and the string is digit-headed with at least two characters. -/
lemma durCore_spec (u : Nat) :
    parseComponents (durCore u) 0 = some u ∧
    ∃ c t, durCore u = c :: t ∧ c.isDigit = true ∧ t ≠ [] := by
  by_cases h9 : u < 1000000000
  · by_cases h0 : u = 0
    · subst h0
      constructor
      · have hone := parseOne_int_unit 0 1000000000 ['s'] []
          (by decide) (by decide) (by decide) (by decide)
        rw [show durCore 0 = fmtInt 0 ++ (['s'] ++ []) from rfl,
          parseComponents_single _ _ 0 (by simp [fmtInt_ne_nil]) hone]
      · exact ⟨'0', ['s'], rfl, by decide, by decide⟩
    · by_cases h3 : u < 1000
      · have hshape : durCore u = fmtInt u ++ ['n', 's'] := by
          rw [durCore, if_pos h9, if_neg h0, if_pos h3]
        have hone := parseOne_component u 0 0 1 (by decide) ['n', 's'] [] 1
          (by decide) (by decide) (by decide) (by decide) (by decide)
        simp [frChars] at hone
        constructor
        · rw [hshape, parseComponents_single _ _ 0 (by simp [fmtInt_ne_nil]) hone]
          simp
        · rw [hshape]
          exact head_shape_fmtInt u _ (by simp)
      · by_cases h6 : u < 1000000
        · have hw3 : u % 1000 < 10 ^ 3 := by
            have := Nat.mod_lt u (y := 1000) (by decide)
            omega
          have hfc := fmtFrac_closed u 3
          have hp3 : (10 : Nat) ^ 3 = 1000 := by norm_num
          rw [hp3] at hfc
          have hshape : durCore u =
              fmtInt (u / 1000) ++ (frChars (u % 1000) 3 ++ ['µ', 's']) := by
            rw [durCore, if_pos h9, if_neg h0, if_neg h3, if_pos h6, hfc]
            simp [List.append_assoc]
          have hone := parseOne_component (u / 1000) (u % 1000) 3 1 hw3
            ['µ', 's'] [] 1000 (by decide) (by decide) (by decide) (by decide) (by decide)
          simp only [List.append_nil] at hone
          constructor
          · rw [hshape, parseComponents_single _ _ 0 (by simp [fmtInt_ne_nil]) hone]
            simp only [Option.some.injEq]
            omega
          · rw [hshape]
            exact head_shape_fmtInt _ _ (by simp)
        · have hw6 : u % 1000000 < 10 ^ 6 := by
            have := Nat.mod_lt u (y := 1000000) (by decide)
            omega
          have hfc := fmtFrac_closed u 6
          have hp6 : (10 : Nat) ^ 6 = 1000000 := by norm_num
          rw [hp6] at hfc
          have hshape : durCore u =
              fmtInt (u / 1000000) ++ (frChars (u % 1000000) 6 ++ ['m', 's']) := by
            rw [durCore, if_pos h9, if_neg h0, if_neg h3, if_neg h6, hfc]
            simp [List.append_assoc]
          have hone := parseOne_component (u / 1000000) (u % 1000000) 6 1 hw6
            ['m', 's'] [] 1000000 (by decide) (by decide) (by decide) (by decide) (by decide)
          simp only [List.append_nil] at hone
          constructor
          · rw [hshape, parseComponents_single _ _ 0 (by simp [fmtInt_ne_nil]) hone]
            simp only [Option.some.injEq]
            omega
          · rw [hshape]
            exact head_shape_fmtInt _ _ (by simp)
  · have hw9 : u % 1000000000 < 10 ^ 9 := by
      have := Nat.mod_lt u (y := 1000000000) (by decide)
      omega
    have hfc := fmtFrac_closed u 9
    have hp9 : (10 : Nat) ^ 9 = 1000000000 := by norm_num
    rw [hp9] at hfc
    have hsnd : (fmtFracAux u 9 false []).2 = u / 1000000000 := by rw [hfc]
    have hfst : (fmtFracAux u 9 false []).1 = frChars (u % 1000000000) 9 := by rw [hfc]
    have hone_s := parseOne_component (u / 1000000000 % 60) (u % 1000000000) 9 1 hw9
      ['s'] [] 1000000000 (by decide) (by decide) (by decide) (by decide) (by decide)
    simp only [List.append_nil] at hone_s
    by_cases hm : u / 1000000000 / 60 = 0
    · have hshape : durCore u =
          fmtInt (u / 1000000000 % 60) ++ (frChars (u % 1000000000) 9 ++ ['s']) := by
        rw [durCore, if_neg h9]
        simp [hsnd, hfst, hm, List.append_assoc]
      constructor
      · rw [hshape, parseComponents_single _ _ 0 (by simp [fmtInt_ne_nil]) hone_s]
        simp only [Option.some.injEq]
        omega
      · rw [hshape]
        exact head_shape_fmtInt _ _ (by simp)
    · have hone_m := parseOne_int_unit (u / 1000000000 / 60 % 60) 60000000000 ['m']
        (fmtInt (u / 1000000000 % 60) ++ (frChars (u % 1000000000) 9 ++ ['s']))
        (by decide) (by decide) (by decide) (spanStopB_fmtInt _ _)
      have hstep_m : ∀ d0 : Nat, parseComponents
          ((fmtInt (u / 1000000000 / 60 % 60) ++ ['m']) ++
            (fmtInt (u / 1000000000 % 60) ++ (frChars (u % 1000000000) 9 ++ ['s']))) d0 =
          parseComponents
            (fmtInt (u / 1000000000 % 60) ++ (frChars (u % 1000000000) 9 ++ ['s']))
            (d0 + u / 1000000000 / 60 % 60 * 60000000000) := by
        intro d0
        apply parseComponents_step _ _ _ _ (by simp [fmtInt_ne_nil])
        rw [List.append_assoc]
        exact hone_m
      by_cases hh : u / 1000000000 / 60 / 60 = 0
      · have hshape : durCore u =
            (fmtInt (u / 1000000000 / 60 % 60) ++ ['m']) ++
              (fmtInt (u / 1000000000 % 60) ++ (frChars (u % 1000000000) 9 ++ ['s'])) := by
          rw [durCore, if_neg h9]
          simp [hsnd, hfst, hm, hh, List.append_assoc]
        constructor
        · rw [hshape, hstep_m 0,
            parseComponents_single _ _ _ (by simp [fmtInt_ne_nil]) hone_s]
          simp only [Option.some.injEq]
          omega
        · rw [hshape, List.append_assoc]
          exact head_shape_fmtInt _ _ (by simp)
      · have hone_h := parseOne_int_unit (u / 1000000000 / 60 / 60) 3600000000000 ['h']
          ((fmtInt (u / 1000000000 / 60 % 60) ++ ['m']) ++
            (fmtInt (u / 1000000000 % 60) ++ (frChars (u % 1000000000) 9 ++ ['s'])))
          (by decide) (by decide) (by decide)
          (by rw [List.append_assoc]; exact spanStopB_fmtInt _ _)
        have hshape : durCore u =
            (fmtInt (u / 1000000000 / 60 / 60) ++ ['h']) ++
              ((fmtInt (u / 1000000000 / 60 % 60) ++ ['m']) ++
                (fmtInt (u / 1000000000 % 60) ++ (frChars (u % 1000000000) 9 ++ ['s']))) := by
          rw [durCore, if_neg h9]
          simp [hsnd, hfst, hm, hh, List.append_assoc]
        have hstep_h : parseComponents
            ((fmtInt (u / 1000000000 / 60 / 60) ++ ['h']) ++
              ((fmtInt (u / 1000000000 / 60 % 60) ++ ['m']) ++
                (fmtInt (u / 1000000000 % 60) ++ (frChars (u % 1000000000) 9 ++ ['s'])))) 0 =
            parseComponents
              ((fmtInt (u / 1000000000 / 60 % 60) ++ ['m']) ++
                (fmtInt (u / 1000000000 % 60) ++ (frChars (u % 1000000000) 9 ++ ['s'])))
              (0 + u / 1000000000 / 60 / 60 * 3600000000000) := by
          apply parseComponents_step _ _ _ _ (by simp [fmtInt_ne_nil])
          rw [List.append_assoc]
          exact hone_h
        constructor
        · rw [hshape, hstep_h, hstep_m _,
            parseComponents_single _ _ _ (by simp [fmtInt_ne_nil]) hone_s]
          simp only [Option.some.injEq]
          omega
        · rw [hshape, List.append_assoc]
          exact head_shape_fmtInt _ _ (by simp)

/-- `ParseDuration` recovers the magnitude from the unsigned format body. -/
lemma parseDuration_durCore (u : Nat) : parseDuration (durCore u) = some (u : Int) := by
  obtain ⟨hmag, c, t, heq, hdigit, htne⟩ := durCore_spec u
  rw [heq] at hmag
  have hcm : ¬(c = '-') := by intro h; subst h; exact absurd hdigit (by decide)
  have hcp : ¬(c = '+') := by intro h; subst h; exact absurd hdigit (by decide)
  have h0 : ¬(c :: t = ['0']) := by
    intro h
    injection h with h1 h2
    exact htne h2
  rw [heq]
  simp [parseDuration, hmag, hcm, hcp, h0]

/-- `ParseDuration` inverts `Duration.String()` on every duration value. -/
lemma parseDuration_durFormat (d : Int) : parseDuration (durFormat d) = some d := by
  by_cases hneg : d < 0
  · obtain ⟨hmag, c, t, heq, hdigit, htne⟩ := durCore_spec d.natAbs
    rw [heq] at hmag
    have h0 : ¬(c :: t = ['0']) := by
      intro h
      injection h with h1 h2
      exact htne h2
    rw [durFormat, if_pos hneg, heq]
    simp [parseDuration, hmag, h0]
    have habs : |d| = -d := abs_of_nonpos (le_of_lt hneg)
    omega
  · rw [durFormat, if_neg hneg, parseDuration_durCore]
    simp only [Option.some.injEq]
    omega

/-- One `Server` survives the payload codec unchanged. -/
lemma decodeServer_encodeServer (s : Server) : decodeServer (encodeServer s) = some s := by
  obtain ⟨lat, ip, cn, van⟩ := s
  cases lat with
  | none => cases van <;> rfl
  | some dd =>
    have hdur := parseDuration_durFormat dd
    cases van <;>
      simp [decodeServer, encodeServer, decodeDurOptField, lookupYaml,
        decodeStrField, decodeBoolField, hdur]

/-- A sequence of encoded servers decodes to the original list. -/
lemma decodeServerSeq_encode (l : List Server) :
    decodeServerSeq (l.map encodeServer) = some l := by
  induction l with
  | nil => rfl
  | cons s rest ih =>
    rw [List.map_cons, decodeServerSeq, decodeServer_encodeServer, ih]
    rfl

/-- Looking up a key in the encoded entries of one family with a different
tag finds nothing. -/
lemma lookupYaml_entry_ne (k0 k : String) (l : List Server) (h : ¬(k0 = k)) :
    lookupYaml (entryIfNonEmpty k0 l) k = none := by
  rw [entryIfNonEmpty]
  by_cases hl : l.isEmpty <;> simp [hl, lookupYaml, h]

/-- Looking up a family's own tag in its encoded entries. -/
lemma lookupYaml_entry_self (k : String) (l : List Server) :
    lookupYaml (entryIfNonEmpty k l) k =
      if l.isEmpty then none else some (.seqVal (l.map encodeServer)) := by
  rw [entryIfNonEmpty]
  by_cases hl : l.isEmpty <;> simp [hl, lookupYaml]

/-- Lookup distributes over appended entry lists. -/
lemma lookupYaml_append (xs ys : List (String × Yaml)) (k : String) :
    lookupYaml (xs ++ ys) k =
      match lookupYaml xs k with
      | some v => some v
      | none => lookupYaml ys k := by
  induction xs with
  | nil => rfl
  | cons kv rest ih =>
    by_cases hk : kv.1 = k
    · simp [lookupYaml, hk]
    · simp [lookupYaml, hk, ih]

/-- Decoding a family field from an encoded `ServersList` recovers that
family's list (the omitted empty case decodes to the Go zero value). -/
lemma decodeServersField_encode (sl : ServersList) (k : String) (l : List Server)
    (hk : lookupYaml (slEntries sl) k =
      if l.isEmpty then none else some (.seqVal (l.map encodeServer))) :
    decodeServersField (slEntries sl) k = some l := by
  rw [decodeServersField, hk]
  by_cases hl : l.isEmpty
  · rw [if_pos hl]
    simp [List.isEmpty_iff.mp hl]
  · rw [if_neg hl]
    exact decodeServerSeq_encode l

/-- The ikev2 lookup on an encoded `ServersList`. -/
lemma lookupYaml_slEntries_ikev2 (sl : ServersList) :
    lookupYaml (slEntries sl) "ikev2" =
      if sl.IkeV2.isEmpty then none else some (.seqVal (sl.IkeV2.map encodeServer)) := by
  rw [slEntries]
  by_cases h1 : sl.IkeV2.isEmpty <;>
    simp [h1, lookupYaml_append, lookupYaml_entry_self,
      lookupYaml_entry_ne "meta" "ikev2" _ (by decide),
      lookupYaml_entry_ne "ovpntcp" "ikev2" _ (by decide),
      lookupYaml_entry_ne "ovpnudp" "ikev2" _ (by decide),
      lookupYaml_entry_ne "wg" "ikev2" _ (by decide)]

/-- The meta lookup on an encoded `ServersList`. -/
lemma lookupYaml_slEntries_meta (sl : ServersList) :
    lookupYaml (slEntries sl) "meta" =
      if sl.Meta.isEmpty then none else some (.seqVal (sl.Meta.map encodeServer)) := by
  rw [slEntries]
  by_cases h1 : sl.Meta.isEmpty <;>
    simp [h1, lookupYaml_append, lookupYaml_entry_self,
      lookupYaml_entry_ne "ikev2" "meta" _ (by decide),
      lookupYaml_entry_ne "ovpntcp" "meta" _ (by decide),
      lookupYaml_entry_ne "ovpnudp" "meta" _ (by decide),
      lookupYaml_entry_ne "wg" "meta" _ (by decide)]

/-- The ovpntcp lookup on an encoded `ServersList`. -/
lemma lookupYaml_slEntries_ovpntcp (sl : ServersList) :
    lookupYaml (slEntries sl) "ovpntcp" =
      if sl.OpenVPNTCP.isEmpty then none
      else some (.seqVal (sl.OpenVPNTCP.map encodeServer)) := by
  rw [slEntries]
  by_cases h1 : sl.OpenVPNTCP.isEmpty <;>
    simp [h1, lookupYaml_append, lookupYaml_entry_self,
      lookupYaml_entry_ne "ikev2" "ovpntcp" _ (by decide),
      lookupYaml_entry_ne "meta" "ovpntcp" _ (by decide),
      lookupYaml_entry_ne "ovpnudp" "ovpntcp" _ (by decide),
      lookupYaml_entry_ne "wg" "ovpntcp" _ (by decide)]

/-- The ovpnudp lookup on an encoded `ServersList`. -/
lemma lookupYaml_slEntries_ovpnudp (sl : ServersList) :
    lookupYaml (slEntries sl) "ovpnudp" =
      if sl.OpenVPNUDP.isEmpty then none
      else some (.seqVal (sl.OpenVPNUDP.map encodeServer)) := by
  rw [slEntries]
  by_cases h1 : sl.OpenVPNUDP.isEmpty <;>
    simp [h1, lookupYaml_append, lookupYaml_entry_self,
      lookupYaml_entry_ne "ikev2" "ovpnudp" _ (by decide),
      lookupYaml_entry_ne "meta" "ovpnudp" _ (by decide),
      lookupYaml_entry_ne "ovpntcp" "ovpnudp" _ (by decide),
      lookupYaml_entry_ne "wg" "ovpnudp" _ (by decide)]

/-- The wg lookup on an encoded `ServersList`. -/
lemma lookupYaml_slEntries_wg (sl : ServersList) :
    lookupYaml (slEntries sl) "wg" =
      if sl.WireGuard.isEmpty then none
      else some (.seqVal (sl.WireGuard.map encodeServer)) := by
  rw [slEntries]
  by_cases h1 : sl.WireGuard.isEmpty <;>
    simp [h1, lookupYaml_append, lookupYaml_entry_self,
      lookupYaml_entry_ne "ikev2" "wg" _ (by decide),
      lookupYaml_entry_ne "meta" "wg" _ (by decide),
      lookupYaml_entry_ne "ovpntcp" "wg" _ (by decide),
      lookupYaml_entry_ne "ovpnudp" "wg" _ (by decide)]

/-- A `ServersList` survives the payload codec unchanged. -/
lemma decodeServersList_encode (sl : ServersList) :
    decodeServersList (slEntries sl) = some sl := by
  obtain ⟨ikev2, meta, ovpntcp, ovpnudp, wg⟩ := sl
  rw [decodeServersList]
  rw [decodeServersField_encode _ "ikev2" ikev2 (lookupYaml_slEntries_ikev2 _),
    decodeServersField_encode _ "meta" meta (lookupYaml_slEntries_meta _),
    decodeServersField_encode _ "ovpntcp" ovpntcp (lookupYaml_slEntries_ovpntcp _),
    decodeServersField_encode _ "ovpnudp" ovpnudp (lookupYaml_slEntries_ovpnudp _),
    decodeServersField_encode _ "wg" wg (lookupYaml_slEntries_wg _)]
  rfl

/-- One `Region` survives the payload codec unchanged. -/
lemma decodeRegion_encodeRegion (r : Region) :
    decodeRegion (encodeRegion r) = some r := by
  obtain ⟨id, name, country, auto, dns, pf, geo, off, servers⟩ := r
  cases servers with
  | none => rfl
  | some sl =>
    rw [show decodeRegion (encodeRegion
        { ID := id, Name := name, Country := country, AutoRegion := auto,
          DNS := dns, PortForward := pf, Geo := geo, Offline := off,
          Servers := some sl }) =
      ((decodeServersList (slEntries sl)).map some).bind fun servers =>
        some { ID := id, Name := name, Country := country, AutoRegion := auto,
               DNS := dns, PortForward := pf, Geo := geo, Offline := off,
               Servers := servers } from rfl]
    rw [decodeServersList_encode]
    rfl

/-- A sequence of encoded regions decodes to the original list. -/
lemma decodeRegionSeq_encode (rs : List Region) :
    decodeRegionSeq (rs.map encodeRegion) = some rs := by
  induction rs with
  | nil => rfl
  | cons r rest ih =>
    rw [List.map_cons, decodeRegionSeq, decodeRegion_encodeRegion, ih]
    rfl

/-- Claim C8: a region list serialized by the persistence payload codec and
then deserialized yields a value equal in all fields to the original (the
encoder is a pure function of the region list, so persisting the same
snapshot twice necessarily produces the identical payload). -/
theorem c8_payload_roundtrip (rs : List Region) :
    decodeRegions (encodeRegions rs) = some rs := by
  rw [encodeRegions, decodeRegions]
  exact decodeRegionSeq_encode rs

end PIA
